import Mathlib

/-!
Verification of the ripcalc address-block computation engine.

This file gives a shallow embedding, in Lean, of the IPv4 and IPv6
CIDR-calculator core of the ripcalc repository (packages `ipv4` and `ipv6`),
together with the parts of the Go standard library (`net.ParseCIDR`,
`netip.ParseAddr`, `net.IP.To4/To16/Mask/String`, `net.CIDRMask`,
`net.IPNet.Contains`) that the repository code calls.

Modelling conventions:
* Go byte slices (`net.IP`, `net.IPMask`) are `List Nat` with every element
  below 256; a `nil` slice is the empty list.
* Go strings are `List Char` (with `String` entry points converting via
  `String.toList`).
* Fallible Go functions returning `(T, error)` become `Option T` or
  `Except GoErr T`; the two error shapes produced by the repository's
  parsers (a wrapped `net.ParseCIDR` error versus `ErrInvalidAddress`)
  are the two constructors of `GoErr`.
* Go machine integers are `Nat` with explicit `% 2 ^ w` at the points where
  overflow can occur (byte increment / uint32 arithmetic).
-/

namespace GoNet

/-- The two error shapes `ipv4.ParseCIDR`/`ipv6.ParseCIDR` produce: a wrapped
error from `net.ParseCIDR`, or the package's own `ErrInvalidAddress`. -/
inductive GoErr where
  | netParse
  | invalidAddress
  deriving DecidableEq, Repr

/-- Decimal digit test, as Go's `'0' <= c && c <= '9'`. -/
def isDigitChar (c : Char) : Bool := '0' ≤ c && c ≤ '9'

/-- Value of a decimal digit character. -/
def digitVal (c : Char) : Nat := c.toNat - 48

/-- Models the accumulation loop of Go `net`'s `dtoi`: consume decimal digits,
failing when the accumulator reaches `big = 0xFFFFFF`.  Because `net.ParseCIDR`
additionally requires that `dtoi` consumed the whole mask string, a non-digit
anywhere is a failure here. -/
def dtoiRun : Nat → List Char → Option Nat
  | n, [] => some n
  | n, c :: rest =>
    if isDigitChar c then
      let n' := n * 10 + digitVal c
      if 0xFFFFFF ≤ n' then none else dtoiRun n' rest
    else none

/-- Go `dtoi` applied to the prefix-length part of a CIDR string, combined with
`net.ParseCIDR`'s check `i == len(mask)`: the whole string must be decimal
digits (at least one). -/
def dtoiAll (s : List Char) : Option Nat :=
  match s with
  | [] => none
  | _ :: _ => dtoiRun 0 s

/-- Digit-accumulation loop of `netip`'s `parseIPv4Fields` for one octet:
consume further decimal digits, failing when the value exceeds 255.  Stops
(successfully) at the first non-digit. -/
def ipv4OctetRun : Nat → List Char → Option (Nat × List Char)
  | val, [] => some (val, [])
  | val, c :: rest =>
    if isDigitChar c then
      let v := val * 10 + digitVal c
      if 255 < v then none else ipv4OctetRun v rest
    else some (val, c :: rest)

/-- One octet of a dotted-quad, per `netip.parseIPv4Fields`: at least one
digit, no leading zero (a `"0"` octet is allowed, `"01"` is not), value ≤ 255. -/
def ipv4Octet (s : List Char) : Option (Nat × List Char) :=
  match s with
  | [] => none
  | c :: rest =>
    if isDigitChar c then
      if c = '0' then
        -- a second digit after a leading '0' is "IPv4 field has octet with leading zero"
        match rest with
        | d :: _ => if isDigitChar d then none else some (0, rest)
        | [] => some (0, [])
      else ipv4OctetRun (digitVal c) rest
    else none

/-- An octet separator: the next character must be a dot. -/
def expectDot : List Char → Option (List Char)
  | c :: rest => if c = '.' then some rest else none
  | [] => none

/-- `netip.parseIPv4Fields`: exactly four dot-separated octets spanning the
whole input.  Returns the four bytes. -/
def parseIPv4Chars (s : List Char) : Option (List Nat) := do
  let (a, r1) ← ipv4Octet s
  let r1' ← expectDot r1
  let (b, r2) ← ipv4Octet r1'
  let r2' ← expectDot r2
  let (c, r3) ← ipv4Octet r2'
  let r3' ← expectDot r3
  let (d, r4) ← ipv4Octet r3'
  if r4 = [] then pure [a, b, c, d] else none

/-- Hexadecimal digit value, per the inlined hex scan of `netip.parseIPv6`. -/
def hexVal (c : Char) : Option Nat :=
  if '0' ≤ c && c ≤ '9' then some (c.toNat - 48)
  else if 'a' ≤ c && c ≤ 'f' then some (c.toNat - 87)
  else if 'A' ≤ c && c ≤ 'F' then some (c.toNat - 55)
  else none

/-- Hex-group scan loop of `netip.parseIPv6`: consumes hex digits into an
accumulator; a fifth digit in a group is an error ("each group must have 4 or
less digits").  `cnt` counts digits already consumed. -/
def hexGroupRun : Nat → Nat → List Char → Option (Nat × List Char)
  | acc, _, [] => some (acc, [])
  | acc, cnt, c :: rest =>
    match hexVal c with
    | none => some (acc, c :: rest)
    | some d =>
      if 4 ≤ cnt then none
      else hexGroupRun (acc * 16 + d) (cnt + 1) rest

/-- One hex group: at least one hex digit ("each colon-separated field must
have at least one digit"). -/
def hexGroup (s : List Char) : Option (Nat × List Char) :=
  match s with
  | [] => none
  | c :: _ => if (hexVal c).isSome then hexGroupRun 0 0 s else none

/-- Main loop of `netip.parseIPv6`.  The 16 result bytes are accumulated as
`pre` (bytes before a `::`, if any) and `post` (`some l` once a `::` has been
seen, with `l` the bytes after it); Go instead tracks the byte index of the
ellipsis in a fixed 16-byte array, which this representation refines.  `fuel`
bounds the loop; each recursive step adds two bytes, so 8 is enough and the
`fuel = 0` case coincides with the `16 ≤ i` exit. -/
def v6loop : Nat → List Nat → Option (List Nat) → List Char →
    Option (List Nat × Option (List Nat))
  | 0, pre, post, s => if s = [] then some (pre, post) else none
  | fuel + 1, pre, post, s =>
    let i := pre.length + (post.getD []).length
    if 16 ≤ i then
      -- loop condition `i < 16` failed: any remaining text is trailing garbage
      if s = [] then some (pre, post) else none
    else
      match hexGroup s with
      | none => none
      | some (v, rest) =>
        if rest.headD ' ' = '.' then
          -- embedded IPv4 must replace the final two fields (or follow a ::)
          if (post.isSome || i == 12) && i + 4 ≤ 16 then
            match parseIPv4Chars s with
            | some quad =>
              match post with
              | none => some (pre ++ quad, none)
              | some l => some (pre, some (l ++ quad))
            | none => none
          else none
        else
          let pre' := match post with | none => pre ++ [v / 256, v % 256] | some _ => pre
          let post' := match post with | none => none | some l => some (l ++ [v / 256, v % 256])
          match rest with
          | [] => some (pre', post')
          | ':' :: ':' :: rest3 =>
            -- a second `::` is "multiple :: in address"
            if post'.isSome then none
            else if rest3 = [] then some (pre', some [])
            else v6loop fuel pre' (some []) rest3
          | ':' :: [] => none
          | ':' :: rest2 => v6loop fuel pre' post' rest2
          | _ => none

/-- Post-processing of `netip.parseIPv6`: without a `::` exactly 16 bytes must
have been parsed; with one, fewer than 16 (the `::` must expand to at least one
zero group), and the gap is filled with zero bytes. -/
def v6finish : Option (List Nat × Option (List Nat)) → Option (List Nat)
  | none => none
  | some (pre, none) => if pre.length = 16 then some pre else none
  | some (pre, some post) =>
    if pre.length + post.length < 16 then
      some (pre ++ List.replicate (16 - (pre.length + post.length)) 0 ++ post)
    else none

/-- `netip.parseIPv6` on a zone-free address.  A `%` introduces a zone, which
`net.ParseCIDR` rejects outright (`ipAddr.Zone() != ""`, or "zone must be a
non-empty string" when empty), so any `%` yields `none` here. -/
def parseIPv6Chars (s : List Char) : Option (List Nat) :=
  if s.contains '%' then none
  else
    match s with
    | ':' :: ':' :: rest =>
      if rest = [] then some (List.replicate 16 0)
      else v6finish (v6loop 8 [] (some []) rest)
    | _ => v6finish (v6loop 8 [] none s)

/-- `netip.ParseAddr` dispatch: the first occurrence of `'.'`, `':'` or `'%'`
decides the format ('%' first means "missing IPv6 address"; none of them means
"unable to parse IP"). -/
def parseAddrChars (s : List Char) : Option (List Nat) :=
  match s.find? (fun c => c = '.' || c = ':' || c = '%') with
  | some '.' => parseIPv4Chars s
  | some ':' => parseIPv6Chars s
  | _ => none

/-- Splits a CIDR string at the first `'/'`, as `net.ParseCIDR` does. -/
def splitSlash : List Char → Option (List Char × List Char)
  | [] => none
  | c :: rest =>
    if c = '/' then some ([], rest)
    else match splitSlash rest with
      | some (a, b) => some (c :: a, b)
      | none => none

/-- `net.ParseCIDR`: split at `'/'`, parse the address via `netip.ParseAddr`,
parse the prefix via `dtoi` (which must consume the whole mask text), and
require `n ≤ ip.BitLen()`.  Returns the parsed address bytes and the prefix
length; the Go function also returns `&IPNet{IP: ip.Mask(m), Mask: CIDRMask(n,
8*len(ip))}`, whose `Mask.Size()` recovers exactly `(n, 8*len(ip))`. -/
def goParseCIDRChars (s : List Char) : Option (List Nat × Nat) := do
  let (addr, mask) ← splitSlash s
  let ip ← parseAddrChars addr
  let n ← dtoiAll mask
  if n ≤ 8 * ip.length then pure (ip, n) else none

def goParseCIDR (s : String) : Option (List Nat × Nat) :=
  goParseCIDRChars s.toList

/-- The prefix of every IPv4-mapped IPv6 address (Go `v4InV6Prefix`). -/
def v4InV6 : List Nat := [0, 0, 0, 0, 0, 0, 0, 0, 0, 0, 255, 255]

/-- `net.IP.To4`: a 4-byte address is returned unchanged; a 16-byte
IPv4-mapped address is shortened to its last four bytes; anything else is
`nil`. -/
def ipTo4 (ip : List Nat) : Option (List Nat) :=
  if ip.length = 4 then some ip
  else if ip.length = 16 && ip.take 12 == v4InV6 then some (ip.drop 12)
  else none

/-- `net.IP.To16`: a 4-byte address is widened to its IPv4-mapped form; a
16-byte address is returned unchanged; anything else is `nil`. -/
def ipTo16 (ip : List Nat) : Option (List Nat) :=
  if ip.length = 4 then some (v4InV6 ++ ip)
  else if ip.length = 16 then some ip
  else none

/-- Byte `i` of a CIDR mask under construction, given that `ones` one-bits are
still to be placed: `0xff` while at least 8 remain, then `^byte(0xff >> n)`
(which for `n ≤ 8` equals `255 - (255 >>> n)`). -/
def cidrMaskBytes : Nat → Nat → List Nat
  | _, 0 => []
  | ones, l + 1 =>
    (if 8 ≤ ones then 255 else 255 - (255 >>> ones)) :: cidrMaskBytes (ones - 8) l

/-- `net.CIDRMask ones bits`: `nil` unless `bits` is 32 or 128 and
`0 ≤ ones ≤ bits`. -/
def cidrMask (ones bits : Nat) : List Nat :=
  if bits ≠ 32 ∧ bits ≠ 128 then []
  else if bits < ones then []
  else cidrMaskBytes ones (bits / 8)

/-- `net.IP.Mask`: after the two length-adaptation rules (a 16-byte mask with
an all-ones IPv4 part against a 4-byte address drops to its last 4 bytes; a
4-byte mask against an IPv4-mapped 16-byte address shortens the address), equal
lengths are required and the result is the byte-wise AND. -/
def ipMask (ip mask : List Nat) : List Nat :=
  let mask' := if mask.length = 16 && ip.length = 4 && mask.take 12 == List.replicate 12 255
    then mask.drop 12 else mask
  let ip' := if mask'.length = 4 && ip.length = 16 && ip.take 12 == v4InV6
    then ip.drop 12 else ip
  if ip'.length ≠ mask'.length then []
  else List.zipWith (fun a b => a &&& b) ip' mask'

/-- `net.networkNumberAndMask`: normalizes an `IPNet`'s address to 4 bytes when
possible and adapts the mask length accordingly; `none` is Go's `nil, nil`. -/
def networkNumberAndMask (nIP nMask : List Nat) : Option (List Nat × List Nat) :=
  match ipTo4 nIP with
  | some ip4 =>
    if nMask.length = 4 then some (ip4, nMask)
    else if nMask.length = 16 then some (ip4, nMask.drop 12)
    else none
  | none =>
    if nIP.length = 16 then
      if nMask.length = 4 then none
      else if nMask.length = 16 then some (nIP, nMask)
      else none
    else none

/-- `net.IPNet.Contains`: normalize the network number and mask, shorten the
queried address to 4 bytes if possible, require equal lengths, and compare all
bytes under the mask. -/
def ipnetContains (nIP nMask ip0 : List Nat) : Bool :=
  match networkNumberAndMask nIP nMask with
  | none => false
  | some (nn, m) =>
    let ip := (ipTo4 ip0).getD ip0
    ip.length == nn.length &&
      List.zipWith (fun a b => a &&& b) nn m == List.zipWith (fun a b => a &&& b) ip m

/-- `mustParseCIDR` (both repository packages define the same helper): parse a
CIDR literal and return the `IPNet` as the pair (masked network address, mask).
The Go helper panics on a malformed literal; the table literals all parse, so
the `none` branch returns a dummy value instead. -/
def mustParseCIDR (cidr : String) : List Nat × List Nat :=
  match goParseCIDR cidr with
  | some (ip, n) => (ipMask ip (cidrMask n (8 * ip.length)), cidrMask n (8 * ip.length))
  | none => ([], [])

/-- Decimal rendering of an integer, as Go's `%d` / `strconv`. -/
def decimalChars (n : Nat) : List Char := (Nat.repr n).toList

/-- Dotted-quad rendering of a 4-byte address (`netip.Addr.appendTo4`). -/
def dottedQuad (ip : List Nat) : List Char :=
  decimalChars (ip.getD 0 0) ++ '.' :: decimalChars (ip.getD 1 0) ++
    '.' :: decimalChars (ip.getD 2 0) ++ '.' :: decimalChars (ip.getD 3 0)

/-- Lowercase hexadecimal digit. -/
def hexDigitLower (n : Nat) : Char :=
  if n < 10 then Char.ofNat (48 + n) else Char.ofNat (87 + n)

/-- `netip.appendHex` on a 16-bit group: nibbles from most significant, with
leading zero nibbles skipped, and a bare `"0"` for a zero group. -/
def appendHexChars (x : Nat) : List Char :=
  if x = 0 then ['0']
  else (List.range 4).filterMap (fun k =>
    let n := x >>> (4 * (3 - k))
    if 0 < n then some (hexDigitLower (n % 16)) else none)

/-- The eight 16-bit groups of a 16-byte address. -/
def v6groups (ip : List Nat) : List Nat :=
  (List.range 8).map (fun i => ip.getD (2 * i) 0 * 256 + ip.getD (2 * i + 1) 0)

/-- Zero-run selection of `netip.Addr.appendTo6`: the leftmost longest run of
at least two all-zero groups, as a half-open interval; `(255, 255)` when no
such run exists. -/
def bestZeroRun (gs : List Nat) : Nat × Nat :=
  (List.range 8).foldl
    (fun p i =>
      let j := i + ((gs.drop i).takeWhile (fun g => g == 0)).length
      if 2 ≤ j - i ∧ p.2 - p.1 < j - i then (i, j) else p)
    (255, 255)

/-- Group-rendering loop of `netip.Addr.appendTo6`: hex groups separated by
`':'`, with the selected zero run `[zs, ze)` replaced by `"::"`.  The loop
renders at most eight groups, so fuel 8 realizes Go's `for` loop exactly. -/
def renderLoop (gs : List Nat) (zs ze : Nat) : Nat → Nat → List Char
  | 0, _ => []
  | fuel + 1, i =>
    if 8 ≤ i then []
    else if i = zs then
      if 8 ≤ ze then [':', ':']
      else ':' :: ':' :: (appendHexChars (gs.getD ze 0) ++ renderLoop gs zs ze fuel (ze + 1))
    else
      (if 0 < i then [':'] else []) ++ appendHexChars (gs.getD i 0) ++
        renderLoop gs zs ze fuel (i + 1)

/-- Canonical compressed rendering of a 16-byte IPv6 address
(`netip.Addr.String` for a non-4-mapped address). -/
def v6Canonical (ip : List Nat) : List Char :=
  let gs := v6groups ip
  let zr := bestZeroRun gs
  renderLoop gs zr.1 zr.2 8 0

/-- Two-digit lowercase hex of a byte (Go `net.hexString`, per byte). -/
def byteHexPad (b : Nat) : List Char := [hexDigitLower (b >>> 4 % 16), hexDigitLower (b % 16)]

/-- `net.IP.String`: `"<nil>"` for an empty address, dotted-quad whenever
`To4` succeeds (so also for IPv4-mapped 16-byte addresses), canonical
compressed IPv6 for other 16-byte addresses, and `"?"` plus hex otherwise. -/
def ipString (ip : List Nat) : List Char :=
  if ip.length = 0 then "<nil>".toList
  else match ipTo4 ip with
  | some p4 => dottedQuad p4
  | none => if ip.length = 16 then v6Canonical ip else '?' :: ip.flatMap byteHexPad

/-- Character of one bit, as in Go's `%b` formatting. -/
def bitChar (b : Bool) : Char := if b then '1' else '0'

/-- The eight characters of `%08b` applied to a byte, most significant bit
first. -/
def byteBits (b : Nat) : List Char :=
  (List.range 8).map (fun k => bitChar (b.testBit (7 - k)))

end GoNet

namespace ipv4

open GoNet

/-- The `addressType` enumeration of package `ipv4`. -/
inductive addressType where
  | addressTypePublic
  | addressTypePrivate
  | addressTypeSharedAddressSpace
  | addressTypeLinkLocal
  | addressTypeLoopback
  | addressTypeMulticast
  deriving DecidableEq, Repr

/-- `addressType.String`. -/
def addressTypeString : addressType → String
  | .addressTypePublic => "Public Internet"
  | .addressTypePrivate => "Private Internet"
  | .addressTypeSharedAddressSpace => "Shared Address Space"
  | .addressTypeLinkLocal => "Link Local"
  | .addressTypeLoopback => "Loopback"
  | .addressTypeMulticast => "Multicast"

/-- `addressRange`: a special range's `IPNet` (masked address and mask) and its
type. -/
structure addressRange where
  network : List Nat × List Nat
  typ : addressType
  deriving DecidableEq, Repr

/-- The ordered `specialRanges` table of package `ipv4`. -/
def specialRanges : List addressRange :=
  [⟨mustParseCIDR "192.168.0.0/16", .addressTypePrivate⟩,
   ⟨mustParseCIDR "172.16.0.0/12", .addressTypePrivate⟩,
   ⟨mustParseCIDR "10.0.0.0/8", .addressTypePrivate⟩,
   ⟨mustParseCIDR "100.64.0.0/10", .addressTypeSharedAddressSpace⟩,
   ⟨mustParseCIDR "169.254.0.0/16", .addressTypeLinkLocal⟩,
   ⟨mustParseCIDR "127.0.0.0/8", .addressTypeLoopback⟩,
   ⟨mustParseCIDR "224.0.0.0/4", .addressTypeMulticast⟩]

/-- The `Network` aggregate of package `ipv4`.  The Go field `Network` is
`NetworkAddr` here and the Go field `Type` (a Lean keyword) is `TypeStr`. -/
structure Network where
  Address : List Nat
  PrefixLength : Nat
  Netmask : List Nat := []
  Wildcard : List Nat := []
  NetworkAddr : List Nat := []
  Broadcast : List Nat := []
  HostMin : List Nat := []
  HostMax : List Nat := []
  HostCount : Nat := 0
  Class : String := ""
  TypeStr : String := ""
  deriving DecidableEq, Repr

/-- `ipv4.ParseCIDR`: `net.ParseCIDR`, then reject when `ip.To4()` is nil
(`ErrInvalidAddress`); on success the address is `ip.To4()` and the prefix
length is `ipNet.Mask.Size()`, i.e. the parsed `n`. -/
def ParseCIDR (cidr : String) : Except GoErr Network :=
  match goParseCIDR cidr with
  | none => .error .netParse
  | some (ip, n) =>
    match ipTo4 ip with
    | none => .error .invalidAddress
    | some a4 => .ok { Address := a4, PrefixLength := n }

/-- `Network.String`: `fmt.Sprintf("%s/%d", n.Address, n.PrefixLength)`. -/
def netString (n : Network) : String :=
  String.mk (ipString n.Address ++ '/' :: decimalChars n.PrefixLength)

/-- `invertMask`: byte-wise complement of the four mask bytes (`^mask[i]` on a
byte equals `255 - mask[i]`).  Go would panic reading a nil mask (prefix
length above 32); missing bytes read as 0 here. -/
def invertMask (mask : List Nat) : List Nat :=
  (List.range 4).map (fun i => 255 - mask.getD i 0)

/-- `calculateBroadcast`: byte-wise OR of network and wildcard. -/
def calculateBroadcast (network wildcard : List Nat) : List Nat :=
  (List.range 4).map (fun i => network.getD i 0 ||| wildcard.getD i 0)

/-- `calculateHostRange`: copy network and broadcast into fresh 4-byte slices,
then `hostMin[3]++` and `hostMax[3]--`, each wrapping modulo 256 (Go byte
arithmetic). -/
def calculateHostRange (network broadcast : List Nat) : List Nat × List Nat :=
  let hostMin := network.take 4 ++ List.replicate (4 - network.length) 0
  let hostMax := broadcast.take 4 ++ List.replicate (4 - broadcast.length) 0
  (hostMin.set 3 ((hostMin.getD 3 0 + 1) % 256),
   hostMax.set 3 ((hostMax.getD 3 0 + 255) % 256))

/-- `calculateHostCount`: zero when at most one host bit remains, else
`(uint32(1) << hostBits) - 2` in uint32 arithmetic (both the shift and the
subtraction wrap modulo `2^32`; for `hostBits = 32` the shift is 0 and the
subtraction wraps to `2^32 - 2`). -/
def calculateHostCount (prefixLen : Nat) : Nat :=
  let hostBits := 32 - prefixLen
  if hostBits ≤ 1 then 0
  else (2 ^ hostBits % 2 ^ 32 + (2 ^ 32 - 2)) % 2 ^ 32

/-- `classifyAddress`: classful A–E letter from the first octet. -/
def classifyAddress (ip : List Nat) : String :=
  let firstOctet := ip.getD 0 0
  if firstOctet ≤ 127 then "A"
  else if firstOctet ≤ 191 then "B"
  else if firstOctet ≤ 223 then "C"
  else if firstOctet ≤ 239 then "D"
  else "E"

/-- The `for … return` scan of `classifyAddressType` over a range table. -/
def classifyLoop : List addressRange → List Nat → addressType
  | [], _ => .addressTypePublic
  | r :: rest, ip =>
    if ipnetContains r.network.1 r.network.2 ip then r.typ else classifyLoop rest ip

/-- `classifyAddressType`: first matching entry of `specialRanges`, defaulting
to `addressTypePublic`. -/
def classifyAddressType (ip : List Nat) : addressType :=
  classifyLoop specialRanges ip

/-- `Network.Calculate`: populates every derived field (returns
`ErrInvalidAddress` when the address is absent). -/
def Calculate (n : Network) : Except GoErr Network :=
  if n.Address = [] then .error .invalidAddress
  else
    let netmask := cidrMask n.PrefixLength 32
    let wildcard := invertMask netmask
    let network := ipMask n.Address netmask
    let broadcast := calculateBroadcast network wildcard
    let hostRange := calculateHostRange network broadcast
    .ok { n with
      Netmask := netmask
      Wildcard := wildcard
      NetworkAddr := network
      Broadcast := broadcast
      HostMin := hostRange.1
      HostMax := hostRange.2
      HostCount := calculateHostCount n.PrefixLength
      Class := classifyAddress n.Address
      TypeStr := addressTypeString (classifyAddressType n.Address) }

/-- `FormatBinary`: `%08b.%08b.%08b.%08b` over the four bytes. -/
def FormatBinary (ip : List Nat) : List Char :=
  if ip.length ≠ 4 then []
  else byteBits (ip.getD 0 0) ++ '.' :: byteBits (ip.getD 1 0) ++
    '.' :: byteBits (ip.getD 2 0) ++ '.' :: byteBits (ip.getD 3 0)

/-- `FormatBinaryWithMask`: the 32 bits of the address with a dot after every
eighth bit (except at the end) and, when `0 < prefixLength < 32`, a single
space immediately before bit `prefixLength`.  The Go loop appends, per index
`i`: the space (when `i == prefixLength`), the bit, then the dot. -/
def FormatBinaryWithMask (ip : List Nat) (prefixLength : Int) : List Char :=
  if ip.length ≠ 4 then []
  else if 32 ≤ prefixLength ∨ prefixLength ≤ 0 then
    (ip.flatMap byteBits).take 8 ++ '.' :: (((ip.flatMap byteBits).drop 8).take 8 ++ '.' ::
      (((ip.flatMap byteBits).drop 16).take 8 ++ '.' :: ((ip.flatMap byteBits).drop 24).take 8))
  else
    (List.range 32).flatMap (fun i =>
      (if (i : Int) = prefixLength then [' '] else []) ++
      [(ip.flatMap byteBits).getD i '0'] ++
      (if (i + 1) % 8 = 0 ∧ i < 31 then ['.'] else []))

end ipv4

namespace ipv6

open GoNet

/-- The `addressType` enumeration of package `ipv6`. -/
inductive addressType where
  | addressTypeGlobalUnicast
  | addressTypeLinkLocal
  | addressTypeUniqueLocal
  | addressTypeMulticast
  | addressTypeLoopback
  | addressTypeUnspecified
  | addressTypeDocumentation
  | addressType6to4
  | addressTypeTeredo
  | addressTypeIPv4Mapped
  | addressTypeReserved
  deriving DecidableEq, Repr

/-- `addressType.String`. -/
def addressTypeString : addressType → String
  | .addressTypeGlobalUnicast => "Internet Routable"
  | .addressTypeLinkLocal => "Auto-configured"
  | .addressTypeUniqueLocal => "Private"
  | .addressTypeMulticast => "Group Communication"
  | .addressTypeLoopback => "Host-only"
  | .addressTypeUnspecified => "Default/Undefined"
  | .addressTypeDocumentation => "RFC Example"
  | .addressType6to4 => "IPv4 Transition (Deprecated)"
  | .addressTypeTeredo => "NAT Traversal"
  | .addressTypeIPv4Mapped => "Embedded IPv4"
  | .addressTypeReserved => "Reserved"

/-- `addressRange` of package `ipv6`: an `IPNet`, a type, and a class label
(the Go field `class` is a Lean keyword, hence `classLabel`). -/
structure addressRange where
  network : List Nat × List Nat
  typ : addressType
  classLabel : String
  deriving DecidableEq, Repr

/-- The ordered `specialRanges` table of package `ipv6`. -/
def specialRanges : List addressRange :=
  [⟨mustParseCIDR "::1/128", .addressTypeLoopback, "Loopback"⟩,
   ⟨mustParseCIDR "::/128", .addressTypeUnspecified, "Unspecified"⟩,
   ⟨mustParseCIDR "fe80::/10", .addressTypeLinkLocal, "Link-Local Unicast"⟩,
   ⟨mustParseCIDR "fc00::/7", .addressTypeUniqueLocal, "Unique Local Address"⟩,
   ⟨mustParseCIDR "ff00::/8", .addressTypeMulticast, "Multicast"⟩,
   ⟨mustParseCIDR "2001:db8::/32", .addressTypeDocumentation, "Documentation"⟩,
   ⟨mustParseCIDR "2002::/16", .addressType6to4, "6to4"⟩,
   ⟨mustParseCIDR "2001::/32", .addressTypeTeredo, "Teredo"⟩,
   ⟨mustParseCIDR "::ffff:0:0/96", .addressTypeIPv4Mapped, "IPv4-Mapped"⟩,
   ⟨mustParseCIDR "2000::/3", .addressTypeGlobalUnicast, "Global Unicast"⟩]

/-- The `Network` aggregate of package `ipv6` (no broadcast; the host count is
a `big.Int`, modeled as an unbounded `Nat`).  The Go field `Network` is
`NetworkAddr` here and `Type` is `TypeStr`. -/
structure Network where
  Address : List Nat
  PrefixLength : Nat
  NetworkAddr : List Nat := []
  HostMin : List Nat := []
  HostMax : List Nat := []
  HostCount : Nat := 0
  Class : String := ""
  TypeStr : String := ""
  deriving DecidableEq, Repr

/-- `ipv6.ParseCIDR`: `net.ParseCIDR`, then reject when `ip.To16()` is nil and
when `ip.To4()` is non-nil (an IPv4 or IPv4-mapped address,
`ErrInvalidAddress`); on success the address is `ip.To16()`. -/
def ParseCIDR (cidr : String) : Except GoErr Network :=
  match goParseCIDR cidr with
  | none => .error .netParse
  | some (ip, n) =>
    match ipTo16 ip with
    | none => .error .invalidAddress
    | some a16 =>
      if (ipTo4 ip).isSome then .error .invalidAddress
      else .ok { Address := a16, PrefixLength := n }

/-- `Network.String`: `fmt.Sprintf("%s/%d", n.Address, n.PrefixLength)`. -/
def netString (n : Network) : String :=
  String.mk (ipString n.Address ++ '/' :: decimalChars n.PrefixLength)

/-- The byte-filling loop of `calculateHostRange`: set `count` bytes to `0xFF`
starting at `byteIndex` and walking down.  (Go's `byteIndex` is an `int`; it
would go below zero only if more than 16 bytes were filled, which `hostBits ≤
128` rules out.) -/
def fillLoop : List Nat → Nat → Nat → List Nat
  | hostMax, 0, _ => hostMax
  | hostMax, count + 1, byteIndex => fillLoop (hostMax.set byteIndex 255) count (byteIndex - 1)

/-- `calculateHostRange`: `hostMin` is a copy of the network address;
`hostMax` is the network address with all `128 - prefixLen` host bits set,
filled a byte at a time from index 15 downward, with a partial byte handled by
OR-ing `(1 << remainingBits) - 1`.  (`hostBits ≤ 0` — here `= 0`, as
`prefixLen ≥ 128` — returns the two copies unchanged; Go's `byteIndex >= 0`
guard is `bytesToFill ≤ 15`.) -/
def calculateHostRange (network : List Nat) (prefixLen : Nat) : List Nat × List Nat :=
  let hostMin := network.take 16 ++ List.replicate (16 - network.length) 0
  let hostMax := network.take 16 ++ List.replicate (16 - network.length) 0
  let hostBits := 128 - prefixLen
  if hostBits = 0 then (hostMin, hostMax)
  else
    let bytesToFill := hostBits / 8
    let remainingBits := hostBits % 8
    let filled := fillLoop hostMax bytesToFill 15
    if 0 < remainingBits ∧ bytesToFill ≤ 15 then
      (hostMin, filled.set (15 - bytesToFill)
        (filled.getD (15 - bytesToFill) 0 ||| ((1 <<< remainingBits) - 1)))
    else (hostMin, filled)

/-- `calculateHostCount`: `big.NewInt(1)` when no host bits remain, else
`2^hostBits` (arbitrary precision). -/
def calculateHostCount (prefixLen : Nat) : Nat :=
  let hostBits := 128 - prefixLen
  if hostBits = 0 then 1
  else 2 ^ hostBits

/-- `getMulticastScope`: the low four bits of byte 1 name the multicast scope;
unknown values render as `Scope-<uppercase hex digit>` (`%X`). -/
def getMulticastScope (ip : List Nat) : String :=
  if ip.length ≠ 16 ∨ ip.getD 0 0 ≠ 255 then "Unknown"
  else
    let scope := ip.getD 1 0 &&& 0x0f
    if scope = 0x1 then "Interface-Local"
    else if scope = 0x2 then "Link-Local"
    else if scope = 0x4 then "Admin-Local"
    else if scope = 0x5 then "Site-Local"
    else if scope = 0x8 then "Organization-Local"
    else if scope = 0xe then "Global"
    else "Scope-" ++ String.singleton (if scope < 10 then Char.ofNat (48 + scope)
      else Char.ofNat (55 + scope))

/-- The `for … return` scan of `classifyAddress` over a range table, with the
multicast special case. -/
def classifyLoop : List addressRange → List Nat → String × String
  | [], _ => ("Reserved", addressTypeString .addressTypeReserved)
  | r :: rest, ip =>
    if ipnetContains r.network.1 r.network.2 ip then
      if r.typ = .addressTypeMulticast then
        ("Multicast " ++ getMulticastScope ip, addressTypeString r.typ)
      else (r.classLabel, addressTypeString r.typ)
    else classifyLoop rest ip

/-- `classifyAddress`: first matching entry of `specialRanges`, defaulting to
`("Reserved", "Reserved")`. -/
def classifyAddress (ip : List Nat) : String × String :=
  classifyLoop specialRanges ip

/-- `compressIPv6`: Go's built-in `ip.String()`. -/
def compressIPv6 (ip : List Nat) : List Char := ipString ip

/-- `formatHostCount`: literal decimal for prefixes ≥ 120, `2^hostBits` for
prefixes in `[64, 120)`, and `2^hostBits (astronomical)` below 64. -/
def formatHostCount (count prefixLen : Nat) : String :=
  if 120 ≤ prefixLen then Nat.repr count
  else if 64 ≤ prefixLen then "2^" ++ Nat.repr (128 - prefixLen)
  else "2^" ++ Nat.repr (128 - prefixLen) ++ " (astronomical)"

/-- `Network.Calculate`: populates every derived field (returns
`ErrInvalidAddress` when the address is absent). -/
def Calculate (n : Network) : Except GoErr Network :=
  if n.Address = [] then .error .invalidAddress
  else
    let mask := cidrMask n.PrefixLength 128
    let network := ipMask n.Address mask
    let hostRange := calculateHostRange network n.PrefixLength
    let classified := classifyAddress n.Address
    .ok { n with
      NetworkAddr := network
      HostMin := hostRange.1
      HostMax := hostRange.2
      HostCount := calculateHostCount n.PrefixLength
      Class := classified.1
      TypeStr := classified.2 }

/-- `FormatBinary`: the 128 bits with a colon before every even byte index
except the first. -/
def FormatBinary (ip : List Nat) : List Char :=
  if ip.length ≠ 16 then []
  else (List.range 16).flatMap (fun i =>
    (if 0 < i ∧ i % 2 = 0 then [':'] else []) ++ byteBits (ip.getD i 0))

/-- `FormatBinaryWithMask`: as `FormatBinary` when `prefixLength ≤ 0` or
`≥ 128`; otherwise the nested byte/bit loop flattened over the 128 bit
positions `k` — a colon at the start of every byte pair after the first
(`k % 16 = 0, k ≠ 0`), a single space when the running bit count equals the
prefix length, then the bit. -/
def FormatBinaryWithMask (ip : List Nat) (prefixLength : Int) : List Char :=
  if ip.length ≠ 16 then []
  else if 128 ≤ prefixLength ∨ prefixLength ≤ 0 then FormatBinary ip
  else
    (List.range 128).flatMap (fun k =>
      (if k % 16 = 0 ∧ k ≠ 0 then [':'] else []) ++
      (if (k : Int) = prefixLength then [' '] else []) ++
      [(ip.flatMap byteBits).getD k '0'])

/-- `calculateIPv6Netmask`: the CIDR mask itself. -/
def calculateIPv6Netmask (prefixLen : Nat) : List Nat := cidrMask prefixLen 128

/-- `calculateIPv6Wildcard`: byte-wise complement of the mask over 16 bytes. -/
def calculateIPv6Wildcard (prefixLen : Nat) : List Nat :=
  (List.range 16).map (fun i => 255 - (cidrMask prefixLen 128).getD i 0)

end ipv6

/-! ## Verification-support definitions -/

/-- Value of a big-endian byte sequence. -/
def bytesToNat : List Nat → Nat
  | [] => 0
  | b :: bs => b * 2 ^ (8 * bs.length) + bytesToNat bs

/-- One byte of a CIDR mask given the number of one-bits still to place
(the head byte produced by `GoNet.cidrMaskBytes`). -/
def maskByte (ones : Nat) : Nat :=
  if 8 ≤ ones then 255 else 255 - (255 >>> ones)

/-- Bit characters of the binary renderings. -/
def isBitChar (c : Char) : Bool := c == '0' || c == '1'

/-- Spec wording of the IPv6 multicast scope table: the scope names for the
4-bit values 1, 2, 4, 5, 8, `e`, with any other value rendered as
`Scope-<hex digit>`. -/
def specScopeName (scope : Nat) : String :=
  if scope = 1 then "Interface-Local"
  else if scope = 2 then "Link-Local"
  else if scope = 4 then "Admin-Local"
  else if scope = 5 then "Site-Local"
  else if scope = 8 then "Organization-Local"
  else if scope = 14 then "Global"
  else "Scope-" ++ String.singleton (if scope < 10 then Char.ofNat (48 + scope)
    else Char.ofNat (55 + scope))

/-- Spec wording of the IPv6 classifier: the class and type labels of the
first special-range entry containing the address (with the multicast-scope
refinement of the class label), and `("Reserved", "Reserved")` when no entry
matches. -/
def specClassifyV6 (ip : List Nat) : String × String :=
  match ipv6.specialRanges.find? (fun r => GoNet.ipnetContains r.network.1 r.network.2 ip) with
  | some r =>
    if r.typ = .addressTypeMulticast then
      ("Multicast " ++ ipv6.getMulticastScope ip, ipv6.addressTypeString r.typ)
    else (r.classLabel, ipv6.addressTypeString r.typ)
  | none => ("Reserved", "Reserved")

/-- Spec wording of the IPv4 type classifier: the type of the first
special-range entry containing the address, defaulting to Public Internet. -/
def specClassifyV4 (ip : List Nat) : ipv4.addressType :=
  match ipv4.specialRanges.find? (fun r => GoNet.ipnetContains r.network.1 r.network.2 ip) with
  | some r => r.typ
  | none => .addressTypePublic

/-! ## Support lemmas: parser shapes -/

namespace GoNet

theorem parseIPv4Chars_length {s : List Char} {l : List Nat}
    (h : parseIPv4Chars s = some l) : l.length = 4 := by
  simp only [parseIPv4Chars, bind, Option.bind_eq_some] at h
  obtain ⟨⟨a, r1⟩, -, r1', -, ⟨b, r2⟩, -, r2', -, ⟨c, r3⟩, -, r3', -, ⟨d, r4⟩, -, h⟩ := h
  split at h
  · cases h; rfl
  · exact absurd h (by simp)

theorem v6finish_length {x : Option (List Nat × Option (List Nat))} {l : List Nat}
    (h : v6finish x = some l) : l.length = 16 := by
  match x with
  | none => exact absurd h (by simp [v6finish])
  | some (pre, none) =>
    by_cases hp : pre.length = 16
    · simp only [v6finish, if_pos hp, Option.some.injEq] at h
      rw [← h]; exact hp
    · simp [v6finish, hp] at h
  | some (pre, some post) =>
    by_cases hp : pre.length + post.length < 16
    · simp only [v6finish, if_pos hp, Option.some.injEq] at h
      have := congrArg List.length h
      simp only [List.length_append, List.length_replicate] at this
      omega
    · simp [v6finish, hp] at h

theorem parseIPv6Chars_length {s : List Char} {l : List Nat}
    (h : parseIPv6Chars s = some l) : l.length = 16 := by
  unfold parseIPv6Chars at h
  split at h
  · exact absurd h (by simp)
  · split at h
    · split at h
      · cases h; simp
      · exact v6finish_length h
    · exact v6finish_length h

theorem parseAddrChars_cases {s : List Char} {l : List Nat}
    (h : parseAddrChars s = some l) :
    (parseIPv4Chars s = some l ∧ l.length = 4) ∨
      (parseIPv6Chars s = some l ∧ l.length = 16 ∧ ':' ∈ s) := by
  unfold parseAddrChars at h
  cases hf : s.find? (fun c => c = '.' || c = ':' || c = '%') with
  | none => rw [hf] at h; exact absurd h (by simp)
  | some c =>
    rw [hf] at h
    have hmem := List.mem_of_find?_eq_some hf
    have hpred := List.find?_some hf
    simp only [decide_eq_true_eq, Bool.or_eq_true] at hpred
    by_cases hc : c = '.'
    · subst hc
      exact Or.inl ⟨h, parseIPv4Chars_length h⟩
    · by_cases hc2 : c = ':'
      · subst hc2
        exact Or.inr ⟨h, parseIPv6Chars_length h, hmem⟩
      · have hc3 : c = '%' := by
          rcases hpred with h1 | h1 | h1 <;> simp_all
        subst hc3
        exact absurd h (by simp)

end GoNet

namespace GoNet

theorem splitSlash_eq : ∀ {s a b : List Char}, splitSlash s = some (a, b) → s = a ++ '/' :: b := by
  intro s
  induction s with
  | nil => intro a b h; exact absurd h (by simp [splitSlash])
  | cons c rest ih =>
    intro a b h
    unfold splitSlash at h
    by_cases hc : c = '/'
    · rw [if_pos hc] at h
      cases h
      simp [hc]
    · rw [if_neg hc] at h
      cases hs : splitSlash rest with
      | none => rw [hs] at h; exact absurd h (by simp)
      | some p =>
        obtain ⟨a', b'⟩ := p
        rw [hs] at h
        cases h
        simp [ih hs]

theorem goParseCIDRChars_inv {s : List Char} {ip : List Nat} {n : Nat}
    (h : goParseCIDRChars s = some (ip, n)) :
    n ≤ 8 * ip.length ∧ ∃ a m, splitSlash s = some (a, m) ∧ parseAddrChars a = some ip := by
  simp only [goParseCIDRChars, bind, Option.bind_eq_some] at h
  obtain ⟨⟨a, m⟩, hs, ip', ha, n', hd, h⟩ := h
  split at h
  · cases h
    exact ⟨by assumption, a, m, hs, ha⟩
  · exact absurd h (by simp)

theorem ipTo4_length {ip a4 : List Nat} (h : ipTo4 ip = some a4) : a4.length = 4 := by
  unfold ipTo4 at h
  split at h
  · cases h; omega
  · split at h
    · rename_i hc
      cases h
      simp only [Bool.and_eq_true, decide_eq_true_eq, beq_iff_eq] at hc
      simp [List.length_drop, hc.1]
    · exact absurd h (by simp)

theorem ipTo16_length {ip a : List Nat} (h : ipTo16 ip = some a) : a.length = 16 := by
  unfold ipTo16 at h
  split at h
  · cases h; simp [v4InV6]; omega
  · split at h
    · cases h; assumption
    · exact absurd h (by simp)

end GoNet

/-! ## C2: prefix-length/byte-length invariants of the two parsers -/

/-- C2, counterexample: `ipv4.ParseCIDR` accepts `::ffff:192.168.1.1/128`,
whose prefix length 128 exceeds 32, refuting the claimed invariant
`PrefixLength ∈ [0, 32]` for every accepted IPv4 input. -/
theorem claim_C2_cex :
    ipv4.ParseCIDR "::ffff:192.168.1.1/128" =
      .ok { Address := [192, 168, 1, 1], PrefixLength := 128 } ∧ ¬(128 ≤ 32) := by
  constructor
  · rfl
  · decide

/-- C2, amended: every string accepted by `ipv4.ParseCIDR` yields a 4-byte
address with `PrefixLength ≤ 128`, and `PrefixLength ≤ 32` whenever the input
contains no colon (i.e. its address part is dotted-quad IPv4); every string
accepted by `ipv6.ParseCIDR` yields a 16-byte address with
`PrefixLength ∈ [0, 128]`. -/
theorem claim_C2_amended :
    (∀ (s : String) (net : ipv4.Network), ipv4.ParseCIDR s = .ok net →
      net.Address.length = 4 ∧ net.PrefixLength ≤ 128 ∧
        (':' ∉ s.toList → net.PrefixLength ≤ 32)) ∧
    (∀ (s : String) (net : ipv6.Network), ipv6.ParseCIDR s = .ok net →
      net.Address.length = 16 ∧ net.PrefixLength ≤ 128) := by
  constructor
  · intro s net h
    unfold ipv4.ParseCIDR at h
    cases hg : GoNet.goParseCIDR s with
    | none => simp only [hg] at h; exact absurd h (by simp)
    | some p =>
      obtain ⟨ip, n⟩ := p
      simp only [hg] at h
      cases h4 : GoNet.ipTo4 ip with
      | none => simp only [h4] at h; exact absurd h (by simp)
      | some a4 =>
        simp only [h4] at h
        cases h
        obtain ⟨hn, a, m, hsplit, haddr⟩ := GoNet.goParseCIDRChars_inv hg
        refine ⟨GoNet.ipTo4_length h4, ?_, ?_⟩
        · show n ≤ 128
          rcases GoNet.parseAddrChars_cases haddr with ⟨-, h1⟩ | ⟨-, h1, -⟩ <;> omega
        · intro hcolon
          show n ≤ 32
          rcases GoNet.parseAddrChars_cases haddr with ⟨-, h1⟩ | ⟨-, -, hmem⟩
          · omega
          · exact absurd (GoNet.splitSlash_eq hsplit ▸ List.mem_append_left _ hmem) hcolon
  · intro s net h
    unfold ipv6.ParseCIDR at h
    cases hg : GoNet.goParseCIDR s with
    | none => simp only [hg] at h; exact absurd h (by simp)
    | some p =>
      obtain ⟨ip, n⟩ := p
      simp only [hg] at h
      cases h16 : GoNet.ipTo16 ip with
      | none => simp only [h16] at h; exact absurd h (by simp)
      | some a16 =>
        simp only [h16] at h
        split at h
        · exact absurd h (by simp)
        · cases h
          obtain ⟨hn, a, m, hsplit, haddr⟩ := GoNet.goParseCIDRChars_inv hg
          refine ⟨GoNet.ipTo16_length h16, ?_⟩
          show n ≤ 128
          rcases GoNet.parseAddrChars_cases haddr with ⟨-, h1⟩ | ⟨-, h1, -⟩
          · exfalso
            have h4 : GoNet.ipTo4 ip = some ip := by unfold GoNet.ipTo4; rw [if_pos h1]
            simp_all
          · omega

/-- C2, witness for the amended claim at `10.0.0.0/16` and `2001:db8::/64`. -/
theorem claim_C2_witness :
    ({ Address := [10, 0, 0, 0], PrefixLength := 16 } : ipv4.Network).Address.length = 4 ∧
    ({ Address := [10, 0, 0, 0], PrefixLength := 16 } : ipv4.Network).PrefixLength ≤ 32 ∧
    ({ Address := [32, 1, 13, 184, 0, 0, 0, 0, 0, 0, 0, 0, 0, 0, 0, 0], PrefixLength := 64 } :
      ipv6.Network).Address.length = 16 :=
  ⟨(claim_C2_amended.1 "10.0.0.0/16" _ (by rfl)).1,
   (claim_C2_amended.1 "10.0.0.0/16" _ (by rfl)).2.2 (by decide),
   (claim_C2_amended.2 "2001:db8::/64" _ (by rfl)).1⟩

/-! ## C1: cross-family rejection of the two parsers -/

/-- C1, counterexample: contrary to the claim, `ipv4.ParseCIDR` does not
return an error on the IPv4-mapped-but-textually-IPv6 input
`::ffff:192.168.1.1/128` — `ip.To4()` succeeds on an IPv4-mapped address, so
the parse succeeds with the 4-byte address and prefix length 128. -/
theorem claim_C1_cex :
    (ipv4.ParseCIDR "::ffff:192.168.1.1/128").isOk = true ∧
    ipv4.ParseCIDR "::ffff:192.168.1.1/128" =
      .ok { Address := [192, 168, 1, 1], PrefixLength := 128 } :=
  ⟨rfl, rfl⟩

/-- C1, amended: `ipv4.ParseCIDR` rejects proper (non-IPv4-mapped) IPv6 input
such as `2001:db8::/64` with `ErrInvalidAddress`, and `ipv6.ParseCIDR` rejects
IPv4 input `192.168.1.1/24` as well as IPv4-mapped textually-IPv6 input with
`ErrInvalidAddress`; but `ipv4.ParseCIDR` accepts IPv4-mapped
textually-IPv6 input, converting it to its 4-byte form. -/
theorem claim_C1_amended :
    ipv4.ParseCIDR "2001:db8::/64" = .error GoNet.GoErr.invalidAddress ∧
    ipv6.ParseCIDR "192.168.1.1/24" = .error GoNet.GoErr.invalidAddress ∧
    ipv6.ParseCIDR "::ffff:192.168.1.1/128" = .error GoNet.GoErr.invalidAddress ∧
    ipv4.ParseCIDR "::ffff:192.168.1.1/128" =
      .ok { Address := [192, 168, 1, 1], PrefixLength := 128 } :=
  ⟨rfl, rfl, rfl, rfl⟩

/-! ## C3: IPv4 host count -/

/-- C3: for prefix lengths in `[0, 32]`, `Calculate` sets `HostCount` to
`2^(32-p) - 2` when at least two host bits remain and to 0 otherwise. -/
theorem claim_C3 (addr : List Nat) (p : Nat) (hp : p ≤ 32)
    (n : ipv4.Network) (h : ipv4.Calculate { Address := addr, PrefixLength := p } = .ok n) :
    n.HostCount = if 2 ≤ 32 - p then 2 ^ (32 - p) - 2 else 0 := by
  unfold ipv4.Calculate at h
  split at h
  · exact absurd h (by simp)
  · cases h
    show ipv4.calculateHostCount p = if 2 ≤ 32 - p then 2 ^ (32 - p) - 2 else 0
    have key : ∀ q : Nat, q ≤ 32 →
        ipv4.calculateHostCount q = if 2 ≤ 32 - q then 2 ^ (32 - q) - 2 else 0 := by decide
    exact key p hp

/-- C3, witness: `/24` gives 254 usable hosts, `/31` and `/32` give 0. -/
theorem claim_C3_witness :
    ({ Address := [192, 168, 0, 1], PrefixLength := 24, Netmask := [255, 255, 255, 0],
       Wildcard := [0, 0, 0, 255], NetworkAddr := [192, 168, 0, 0],
       Broadcast := [192, 168, 0, 255], HostMin := [192, 168, 0, 1],
       HostMax := [192, 168, 0, 254], HostCount := 254, Class := "C",
       TypeStr := "Private Internet" } : ipv4.Network).HostCount =
      (if 2 ≤ 32 - 24 then 2 ^ (32 - 24) - 2 else 0) ∧
    ({ Address := [192, 168, 0, 0], PrefixLength := 31, Netmask := [255, 255, 255, 254],
       Wildcard := [0, 0, 0, 1], NetworkAddr := [192, 168, 0, 0],
       Broadcast := [192, 168, 0, 1], HostMin := [192, 168, 0, 1],
       HostMax := [192, 168, 0, 0], HostCount := 0, Class := "C",
       TypeStr := "Private Internet" } : ipv4.Network).HostCount =
      (if 2 ≤ 32 - 31 then 2 ^ (32 - 31) - 2 else 0) ∧
    ({ Address := [192, 168, 0, 0], PrefixLength := 32, Netmask := [255, 255, 255, 255],
       Wildcard := [0, 0, 0, 0], NetworkAddr := [192, 168, 0, 0],
       Broadcast := [192, 168, 0, 0], HostMin := [192, 168, 0, 1],
       HostMax := [192, 168, 0, 255], HostCount := 0, Class := "C",
       TypeStr := "Private Internet" } : ipv4.Network).HostCount =
      (if 2 ≤ 32 - 32 then 2 ^ (32 - 32) - 2 else 0) :=
  ⟨claim_C3 [192, 168, 0, 1] 24 (by decide) _ rfl,
   claim_C3 [192, 168, 0, 0] 31 (by decide) _ rfl,
   claim_C3 [192, 168, 0, 0] 32 (by decide) _ rfl⟩

/-! ## C7: IPv6 host count and its report rendering -/

/-- C7: `Calculate` sets `HostCount` to exactly `2^(128-p)` (so 1 at `p =
128`), and `formatHostCount` renders it as the literal decimal count when `p ≥
120`, as `2^<128-p>` when `64 ≤ p < 120`, and as `2^<128-p> (astronomical)`
when `p < 64`. -/
theorem claim_C7 (addr : List Nat) (p : Nat) (_hp : p ≤ 128)
    (n : ipv6.Network) (h : ipv6.Calculate { Address := addr, PrefixLength := p } = .ok n) :
    n.HostCount = 2 ^ (128 - p) ∧
    ipv6.formatHostCount n.HostCount p =
      (if 120 ≤ p then Nat.repr (2 ^ (128 - p))
       else if 64 ≤ p then "2^" ++ Nat.repr (128 - p)
       else "2^" ++ Nat.repr (128 - p) ++ " (astronomical)") := by
  unfold ipv6.Calculate at h
  split at h
  · exact absurd h (by simp)
  · cases h
    have hc : ipv6.calculateHostCount p = 2 ^ (128 - p) := by
      unfold ipv6.calculateHostCount
      by_cases h0 : 128 - p = 0
      · simp [h0]
      · simp [h0]
    refine ⟨hc, ?_⟩
    show ipv6.formatHostCount (ipv6.calculateHostCount p) p = _
    rw [hc]
    rfl

/-- C7, witness: `/128` has host count `1` rendered as `"1"`, `/64` has
`2^64` rendered as `"2^64"`. -/
theorem claim_C7_witness :
    ({ Address := [0, 0, 0, 0, 0, 0, 0, 0, 0, 0, 0, 0, 0, 0, 0, 1], PrefixLength := 128,
       NetworkAddr := [0, 0, 0, 0, 0, 0, 0, 0, 0, 0, 0, 0, 0, 0, 0, 1],
       HostMin := [0, 0, 0, 0, 0, 0, 0, 0, 0, 0, 0, 0, 0, 0, 0, 1],
       HostMax := [0, 0, 0, 0, 0, 0, 0, 0, 0, 0, 0, 0, 0, 0, 0, 1], HostCount := 1,
       Class := "Loopback", TypeStr := "Host-only" } : ipv6.Network).HostCount = 2 ^ (128 - 128) ∧
    ipv6.formatHostCount 1 128 = Nat.repr (2 ^ (128 - 128)) ∧
    ipv6.formatHostCount (2 ^ 64) 64 = "2^" ++ Nat.repr (128 - 64) := by
  have h128 := claim_C7 [0, 0, 0, 0, 0, 0, 0, 0, 0, 0, 0, 0, 0, 0, 0, 1] 128 (by decide) _ rfl
  refine ⟨h128.1, ?_, ?_⟩
  · exact h128.2
  · have h64 := claim_C7 [32, 1, 13, 184, 0, 0, 0, 0, 0, 0, 0, 0, 0, 0, 0, 0] 64 (by decide) _ rfl
    exact h64.2

/-! ## C6: first-match classification and multicast scope decoding -/

theorem ipv6_classifyLoop_eq_find (table : List ipv6.addressRange) (ip : List Nat) :
    ipv6.classifyLoop table ip =
      (match table.find? (fun r => GoNet.ipnetContains r.network.1 r.network.2 ip) with
       | some r =>
         if r.typ = .addressTypeMulticast then
           ("Multicast " ++ ipv6.getMulticastScope ip, ipv6.addressTypeString r.typ)
         else (r.classLabel, ipv6.addressTypeString r.typ)
       | none => ("Reserved", "Reserved")) := by
  induction table with
  | nil => rfl
  | cons r rest ih =>
    by_cases hc : GoNet.ipnetContains r.network.1 r.network.2 ip
    · have hfind : (r :: rest).find?
          (fun r => GoNet.ipnetContains r.network.1 r.network.2 ip) = some r :=
        List.find?_cons_of_pos _ hc
      simp only [ipv6.classifyLoop, if_pos hc, hfind]
    · have hfind : (r :: rest).find?
          (fun r => GoNet.ipnetContains r.network.1 r.network.2 ip) =
          rest.find? (fun r => GoNet.ipnetContains r.network.1 r.network.2 ip) :=
        List.find?_cons_of_neg _ (by simpa using hc)
      simp only [ipv6.classifyLoop, if_neg hc, hfind, ih]

theorem ipv4_classifyLoop_eq_find (table : List ipv4.addressRange) (ip : List Nat) :
    ipv4.classifyLoop table ip =
      (match table.find? (fun r => GoNet.ipnetContains r.network.1 r.network.2 ip) with
       | some r => r.typ
       | none => .addressTypePublic) := by
  induction table with
  | nil => rfl
  | cons r rest ih =>
    by_cases hc : GoNet.ipnetContains r.network.1 r.network.2 ip
    · have hfind : (r :: rest).find?
          (fun r => GoNet.ipnetContains r.network.1 r.network.2 ip) = some r :=
        List.find?_cons_of_pos _ hc
      simp only [ipv4.classifyLoop, if_pos hc, hfind]
    · have hfind : (r :: rest).find?
          (fun r => GoNet.ipnetContains r.network.1 r.network.2 ip) =
          rest.find? (fun r => GoNet.ipnetContains r.network.1 r.network.2 ip) :=
        List.find?_cons_of_neg _ (by simpa using hc)
      simp only [ipv4.classifyLoop, if_neg hc, hfind, ih]

theorem getMulticastScope_decode (ip : List Nat) (hlen : ip.length = 16)
    (h0 : ip.getD 0 0 = 255) :
    ipv6.getMulticastScope ip = specScopeName (ip.getD 1 0 % 16) := by
  unfold ipv6.getMulticastScope specScopeName
  rw [if_neg (by push_neg; exact ⟨hlen, h0⟩)]
  have hs : ip.getD 1 0 &&& 15 = ip.getD 1 0 % 16 :=
    calc ip.getD 1 0 &&& 15 = ip.getD 1 0 &&& (2 ^ 4 - 1) := by norm_num
      _ = ip.getD 1 0 % 2 ^ 4 := Nat.and_pow_two_sub_one_eq_mod _ 4
      _ = ip.getD 1 0 % 16 := by norm_num
  rw [hs]

/-- C6: both classifiers return the labels of the first special-range entry
containing the address, scanned in declared order (formalized via
`List.find?`); the IPv6 multicast class label carries the scope decoded from
the low 4 bits of byte 1 (1, 2, 4, 5, 8, `e` named; others as
`Scope-<hex digit>`); with no match, IPv4 yields type `Public Internet` and
IPv6 yields class `Reserved` and type `Reserved`. -/
theorem claim_C6 :
    (∀ ip : List Nat, ipv6.classifyAddress ip = specClassifyV6 ip) ∧
    (∀ ip : List Nat, ip.length = 16 → ip.getD 0 0 = 255 →
      ipv6.getMulticastScope ip = specScopeName (ip.getD 1 0 % 16)) ∧
    (∀ ip : List Nat, ipv4.classifyAddressType ip = specClassifyV4 ip) ∧
    (∀ ip : List Nat,
      ipv6.specialRanges.find? (fun r => GoNet.ipnetContains r.network.1 r.network.2 ip) =
        none → ipv6.classifyAddress ip = ("Reserved", "Reserved")) ∧
    (∀ ip : List Nat,
      ipv4.specialRanges.find? (fun r => GoNet.ipnetContains r.network.1 r.network.2 ip) =
        none → ipv4.addressTypeString (ipv4.classifyAddressType ip) = "Public Internet") := by
  refine ⟨?_, getMulticastScope_decode, ?_, ?_, ?_⟩
  · intro ip
    unfold ipv6.classifyAddress specClassifyV6
    rw [ipv6_classifyLoop_eq_find]
  · intro ip
    unfold ipv4.classifyAddressType specClassifyV4
    rw [ipv4_classifyLoop_eq_find]
  · intro ip hnone
    unfold ipv6.classifyAddress
    rw [ipv6_classifyLoop_eq_find, hnone]
  · intro ip hnone
    unfold ipv4.classifyAddressType
    rw [ipv4_classifyLoop_eq_find, hnone]
    rfl

/-- C6, witness: `ff05::1` is classified `("Multicast Site-Local", "Group
Communication")`, matching the spec-side classifier, and its scope decodes to
`Site-Local`; `8.8.8.8` matches no IPv4 special range and classifies as
`Public Internet`. -/
theorem claim_C6_witness :
    ipv6.classifyAddress [255, 5, 0, 0, 0, 0, 0, 0, 0, 0, 0, 0, 0, 0, 0, 1] =
      specClassifyV6 [255, 5, 0, 0, 0, 0, 0, 0, 0, 0, 0, 0, 0, 0, 0, 1] ∧
    ipv6.getMulticastScope [255, 5, 0, 0, 0, 0, 0, 0, 0, 0, 0, 0, 0, 0, 0, 1] =
      specScopeName ([255, 5, 0, 0, 0, 0, 0, 0, 0, 0, 0, 0, 0, 0, 0, 1].getD 1 0 % 16) ∧
    ipv4.addressTypeString (ipv4.classifyAddressType [8, 8, 8, 8]) = "Public Internet" :=
  ⟨claim_C6.1 [255, 5, 0, 0, 0, 0, 0, 0, 0, 0, 0, 0, 0, 0, 0, 1],
   claim_C6.2.1 [255, 5, 0, 0, 0, 0, 0, 0, 0, 0, 0, 0, 0, 0, 0, 1] (by decide) (by decide),
   claim_C6.2.2.2.2 [8, 8, 8, 8] (by rfl)⟩

/-! ## C5: IPv4 mask-algebra identities -/

theorem cidrMaskBytes_four (p : Nat) :
    GoNet.cidrMaskBytes p 4 =
      [maskByte p, maskByte (p - 8), maskByte (p - 16), maskByte (p - 24)] := by
  simp [GoNet.cidrMaskBytes, maskByte, Nat.sub_sub]

theorem cidrMask_32_eq (p : Nat) (hp : p ≤ 32) :
    GoNet.cidrMask p 32 =
      [maskByte p, maskByte (p - 8), maskByte (p - 16), maskByte (p - 24)] := by
  unfold GoNet.cidrMask
  rw [if_neg (by simp), if_neg (by omega)]
  exact cidrMaskBytes_four p

theorem ipMask_four (a0 a1 a2 a3 m0 m1 m2 m3 : Nat) :
    GoNet.ipMask [a0, a1, a2, a3] [m0, m1, m2, m3] =
      [a0 &&& m0, a1 &&& m1, a2 &&& m2, a3 &&& m3] := rfl

theorem invertMask_four (m0 m1 m2 m3 : Nat) :
    ipv4.invertMask [m0, m1, m2, m3] = [255 - m0, 255 - m1, 255 - m2, 255 - m3] := rfl

theorem calculateBroadcast_four (n0 n1 n2 n3 w0 w1 w2 w3 : Nat) :
    ipv4.calculateBroadcast [n0, n1, n2, n3] [w0, w1, w2, w3] =
      [n0 ||| w0, n1 ||| w1, n2 ||| w2, n3 ||| w3] := rfl

theorem maskByte_min (k : Nat) : maskByte k = maskByte (min k 8) := by
  unfold maskByte
  by_cases h : 8 ≤ k
  · rw [if_pos h, if_pos (by omega : 8 ≤ min k 8)]
  · have hmin : min k 8 = k := by omega
    rw [hmin]

set_option maxRecDepth 4000 in
theorem maskByte_land (a k : Nat) (ha : a < 256) :
    (a &&& maskByte k) &&& (255 - maskByte k) = 0 := by
  have key : ∀ a < 256, ∀ j < 9, (a &&& maskByte j) &&& (255 - maskByte j) = 0 := by decide
  rw [maskByte_min]
  exact key a ha (min k 8) (by omega)

set_option maxRecDepth 4000 in
theorem maskByte_restore (a k : Nat) (ha : a < 256) :
    ((a &&& maskByte k) ||| (255 - maskByte k)) &&& (255 - (255 - maskByte k)) =
      a &&& maskByte k := by
  have key : ∀ a < 256, ∀ j < 9,
      ((a &&& maskByte j) ||| (255 - maskByte j)) &&& (255 - (255 - maskByte j)) =
        a &&& maskByte j := by decide
  rw [maskByte_min]
  exact key a ha (min k 8) (by omega)

/-- C5: after `Calculate` with a prefix in `[0, 32]`, byte-wise
`Network AND Wildcard` is all-zero, `Network OR Wildcard` is `Broadcast`, and
`Broadcast AND NOT(Wildcard)` is `Network` (NOT being the source's
`invertMask`). -/
theorem claim_C5 (a0 a1 a2 a3 : Nat) (h0 : a0 < 256) (h1 : a1 < 256) (h2 : a2 < 256)
    (h3 : a3 < 256) (p : Nat) (hp : p ≤ 32) (n : ipv4.Network)
    (h : ipv4.Calculate { Address := [a0, a1, a2, a3], PrefixLength := p } = .ok n) :
    List.zipWith (fun x y => x &&& y) n.NetworkAddr n.Wildcard = [0, 0, 0, 0] ∧
    List.zipWith (fun x y => x ||| y) n.NetworkAddr n.Wildcard = n.Broadcast ∧
    List.zipWith (fun x y => x &&& y) n.Broadcast (ipv4.invertMask n.Wildcard) =
      n.NetworkAddr := by
  unfold ipv4.Calculate at h
  split at h
  · exact absurd h (by simp)
  · cases h
    refine ⟨?_, ?_, ?_⟩
    · show List.zipWith (fun x y => x &&& y)
        (GoNet.ipMask [a0, a1, a2, a3] (GoNet.cidrMask p 32))
        (ipv4.invertMask (GoNet.cidrMask p 32)) = [0, 0, 0, 0]
      rw [cidrMask_32_eq p hp, ipMask_four, invertMask_four]
      simp only [List.zipWith, List.cons.injEq, and_true]
      exact ⟨maskByte_land a0 p h0, maskByte_land a1 (p - 8) h1,
        maskByte_land a2 (p - 16) h2, maskByte_land a3 (p - 24) h3⟩
    · show List.zipWith (fun x y => x ||| y)
        (GoNet.ipMask [a0, a1, a2, a3] (GoNet.cidrMask p 32))
        (ipv4.invertMask (GoNet.cidrMask p 32)) =
        ipv4.calculateBroadcast (GoNet.ipMask [a0, a1, a2, a3] (GoNet.cidrMask p 32))
          (ipv4.invertMask (GoNet.cidrMask p 32))
      rw [cidrMask_32_eq p hp, ipMask_four, invertMask_four]
      rfl
    · show List.zipWith (fun x y => x &&& y)
        (ipv4.calculateBroadcast (GoNet.ipMask [a0, a1, a2, a3] (GoNet.cidrMask p 32))
          (ipv4.invertMask (GoNet.cidrMask p 32)))
        (ipv4.invertMask (ipv4.invertMask (GoNet.cidrMask p 32))) =
        GoNet.ipMask [a0, a1, a2, a3] (GoNet.cidrMask p 32)
      rw [cidrMask_32_eq p hp, ipMask_four, invertMask_four, calculateBroadcast_four,
        invertMask_four]
      simp only [List.zipWith, List.cons.injEq, and_true]
      exact ⟨maskByte_restore a0 p h0, maskByte_restore a1 (p - 8) h1,
        maskByte_restore a2 (p - 16) h2, maskByte_restore a3 (p - 24) h3⟩

/-- C5, witness at `192.168.0.1/24`. -/
theorem claim_C5_witness :
    List.zipWith (fun x y => x &&& y) [192, 168, 0, 0] [0, 0, 0, 255] = [0, 0, 0, 0] ∧
    List.zipWith (fun x y => x ||| y) [192, 168, 0, 0] [0, 0, 0, 255] = [192, 168, 0, 255] ∧
    List.zipWith (fun x y => x &&& y) [192, 168, 0, 255] (ipv4.invertMask [0, 0, 0, 255]) =
      [192, 168, 0, 0] := by
  have h := claim_C5 192 168 0 1 (by decide) (by decide) (by decide) (by decide) 24
    (by decide) _ rfl
  exact h

/-! ## C10: IPv4 host-range derivation by last-octet increment/decrement -/

set_option maxRecDepth 4000 in
theorem land_255 (a : Nat) (ha : a < 256) : a &&& 255 = a := by
  have key : ∀ a < 256, a &&& 255 = a := by decide
  exact key a ha

set_option maxRecDepth 4000 in
theorem wrap31_min (a : Nat) (ha : a < 256) :
    ((a &&& 254) + 1) % 256 = (a &&& 254) ||| 1 := by
  have key : ∀ a < 256, ((a &&& 254) + 1) % 256 = (a &&& 254) ||| 1 := by decide
  exact key a ha

set_option maxRecDepth 4000 in
theorem wrap31_max (a : Nat) (ha : a < 256) :
    (((a &&& 254) ||| 1) + 255) % 256 = a &&& 254 := by
  have key : ∀ a < 256, (((a &&& 254) ||| 1) + 255) % 256 = a &&& 254 := by decide
  exact key a ha

theorem ipv4_Calculate_eq (a0 a1 a2 a3 : Nat) (p : Nat) (hp : p ≤ 32) :
    ipv4.Calculate { Address := [a0, a1, a2, a3], PrefixLength := p } = .ok
      { Address := [a0, a1, a2, a3]
        PrefixLength := p
        Netmask := [maskByte p, maskByte (p - 8), maskByte (p - 16), maskByte (p - 24)]
        Wildcard := [255 - maskByte p, 255 - maskByte (p - 8), 255 - maskByte (p - 16),
          255 - maskByte (p - 24)]
        NetworkAddr := [a0 &&& maskByte p, a1 &&& maskByte (p - 8), a2 &&& maskByte (p - 16),
          a3 &&& maskByte (p - 24)]
        Broadcast := [(a0 &&& maskByte p) ||| (255 - maskByte p),
          (a1 &&& maskByte (p - 8)) ||| (255 - maskByte (p - 8)),
          (a2 &&& maskByte (p - 16)) ||| (255 - maskByte (p - 16)),
          (a3 &&& maskByte (p - 24)) ||| (255 - maskByte (p - 24))]
        HostMin := [a0 &&& maskByte p, a1 &&& maskByte (p - 8), a2 &&& maskByte (p - 16),
          ((a3 &&& maskByte (p - 24)) + 1) % 256]
        HostMax := [(a0 &&& maskByte p) ||| (255 - maskByte p),
          (a1 &&& maskByte (p - 8)) ||| (255 - maskByte (p - 8)),
          (a2 &&& maskByte (p - 16)) ||| (255 - maskByte (p - 16)),
          (((a3 &&& maskByte (p - 24)) ||| (255 - maskByte (p - 24))) + 255) % 256]
        HostCount := ipv4.calculateHostCount p
        Class := ipv4.classifyAddress [a0, a1, a2, a3]
        TypeStr := ipv4.addressTypeString (ipv4.classifyAddressType [a0, a1, a2, a3]) } := by
  unfold ipv4.Calculate
  rw [if_neg (by simp), cidrMask_32_eq p hp]
  rfl

/-- C10: `Calculate` derives `HostMin`/`HostMax` by adjusting only the last
octet of the network/broadcast address, wrapping modulo 256: in general
`HostMin = Network` with its last octet incremented and `HostMax = Broadcast`
with its last octet decremented; at `/32`, `HostMin`/`HostMax` are the address
with last octet `±1 mod 256` (so `a.b.c.255/32` gives `HostMin` `a.b.c.0` and
`a.b.c.0/32` gives `HostMax` `a.b.c.255`); at `/31` the range is inverted:
`HostMin = Broadcast` and `HostMax = Network`, while `HostCount` is 0. -/
theorem claim_C10 (a0 a1 a2 a3 : Nat) (h0 : a0 < 256) (h1 : a1 < 256) (h2 : a2 < 256)
    (h3 : a3 < 256) (p : Nat) (hp : p ≤ 32) (n : ipv4.Network)
    (h : ipv4.Calculate { Address := [a0, a1, a2, a3], PrefixLength := p } = .ok n) :
    (n.HostMin = n.NetworkAddr.set 3 ((n.NetworkAddr.getD 3 0 + 1) % 256) ∧
      n.HostMax = n.Broadcast.set 3 ((n.Broadcast.getD 3 0 + 255) % 256)) ∧
    (p = 32 → n.HostMin = [a0, a1, a2, (a3 + 1) % 256] ∧
      n.HostMax = [a0, a1, a2, (a3 + 255) % 256]) ∧
    (p = 32 → a3 = 255 → n.HostMin = [a0, a1, a2, 0]) ∧
    (p = 32 → a3 = 0 → n.HostMax = [a0, a1, a2, 255]) ∧
    (p = 31 → n.HostMin = n.Broadcast ∧ n.HostMax = n.NetworkAddr ∧ n.HostCount = 0) := by
  rw [ipv4_Calculate_eq a0 a1 a2 a3 p hp] at h
  injection h with h2
  subst h2
  refine ⟨⟨rfl, rfl⟩, ?_, ?_, ?_, ?_⟩
  · intro hp32
    subst hp32
    have hm : maskByte 32 = 255 := by decide
    have hm24 : maskByte 24 = 255 := by decide
    have hm16 : maskByte 16 = 255 := by decide
    have hm8 : maskByte 8 = 255 := by decide
    constructor
    · show [a0 &&& maskByte 32, a1 &&& maskByte 24, a2 &&& maskByte 16,
        ((a3 &&& maskByte 8) + 1) % 256] = [a0, a1, a2, (a3 + 1) % 256]
      rw [hm, hm24, hm16, hm8, land_255 a0 h0, land_255 a1 h1, land_255 a2 h2,
        land_255 a3 h3]
    · show [(a0 &&& maskByte 32) ||| (255 - maskByte 32),
        (a1 &&& maskByte 24) ||| (255 - maskByte 24),
        (a2 &&& maskByte 16) ||| (255 - maskByte 16),
        (((a3 &&& maskByte 8) ||| (255 - maskByte 8)) + 255) % 256] =
        [a0, a1, a2, (a3 + 255) % 256]
      rw [hm, hm24, hm16, hm8, land_255 a0 h0, land_255 a1 h1, land_255 a2 h2,
        land_255 a3 h3]
      norm_num
  · intro hp32 ha3
    subst hp32
    subst ha3
    have hmin : ((255 &&& maskByte 8) + 1) % 256 = 0 := by decide
    show [a0 &&& maskByte 32, a1 &&& maskByte 24, a2 &&& maskByte 16,
      ((255 &&& maskByte 8) + 1) % 256] = [a0, a1, a2, 0]
    rw [hmin, (by decide : maskByte 32 = 255), (by decide : maskByte 24 = 255),
      (by decide : maskByte 16 = 255), land_255 a0 h0, land_255 a1 h1, land_255 a2 h2]
  · intro hp32 ha3
    subst hp32
    subst ha3
    have hmax : (((0 &&& maskByte 8) ||| (255 - maskByte 8)) + 255) % 256 = 255 := by decide
    show [(a0 &&& maskByte 32) ||| (255 - maskByte 32),
      (a1 &&& maskByte 24) ||| (255 - maskByte 24),
      (a2 &&& maskByte 16) ||| (255 - maskByte 16),
      (((0 &&& maskByte 8) ||| (255 - maskByte 8)) + 255) % 256] = [a0, a1, a2, 255]
    rw [hmax, (by decide : maskByte 32 = 255), (by decide : maskByte 24 = 255),
      (by decide : maskByte 16 = 255), land_255 a0 h0, land_255 a1 h1, land_255 a2 h2]
    norm_num
  · intro hp31
    subst hp31
    have hm : maskByte 31 = 255 := by decide
    have hm23 : maskByte 23 = 255 := by decide
    have hm15 : maskByte 15 = 255 := by decide
    have hm7 : maskByte 7 = 254 := by decide
    refine ⟨?_, ?_, rfl⟩
    · show [a0 &&& maskByte 31, a1 &&& maskByte 23, a2 &&& maskByte 15,
        ((a3 &&& maskByte 7) + 1) % 256] =
        [(a0 &&& maskByte 31) ||| (255 - maskByte 31),
         (a1 &&& maskByte 23) ||| (255 - maskByte 23),
         (a2 &&& maskByte 15) ||| (255 - maskByte 15),
         (a3 &&& maskByte 7) ||| (255 - maskByte 7)]
      rw [hm, hm23, hm15, hm7]
      norm_num [wrap31_min a3 h3]
    · show [(a0 &&& maskByte 31) ||| (255 - maskByte 31),
        (a1 &&& maskByte 23) ||| (255 - maskByte 23),
        (a2 &&& maskByte 15) ||| (255 - maskByte 15),
        (((a3 &&& maskByte 7) ||| (255 - maskByte 7)) + 255) % 256] =
        [a0 &&& maskByte 31, a1 &&& maskByte 23, a2 &&& maskByte 15, a3 &&& maskByte 7]
      rw [hm, hm23, hm15, hm7]
      norm_num [wrap31_max a3 h3]

/-- C10, witness at `10.0.0.255/32`, `10.0.0.0/32` and `10.0.0.0/31`. -/
theorem claim_C10_witness :
    (ipv4.Calculate { Address := [10, 0, 0, 255], PrefixLength := 32 }).map ipv4.Network.HostMin
      = .ok [10, 0, 0, 0] ∧
    (ipv4.Calculate { Address := [10, 0, 0, 0], PrefixLength := 32 }).map ipv4.Network.HostMax
      = .ok [10, 0, 0, 255] ∧
    (ipv4.Calculate { Address := [10, 0, 0, 0], PrefixLength := 31 }).map ipv4.Network.HostCount
      = .ok 0 := by
  refine ⟨?_, ?_, ?_⟩
  · have h := claim_C10 10 0 0 255 (by decide) (by decide) (by decide) (by decide) 32
      (by decide) _ (ipv4_Calculate_eq 10 0 0 255 32 (by decide))
    rw [ipv4_Calculate_eq 10 0 0 255 32 (by decide)]
    exact congrArg Except.ok (h.2.2.1 rfl rfl)
  · have h := claim_C10 10 0 0 0 (by decide) (by decide) (by decide) (by decide) 32
      (by decide) _ (ipv4_Calculate_eq 10 0 0 0 32 (by decide))
    rw [ipv4_Calculate_eq 10 0 0 0 32 (by decide)]
    exact congrArg Except.ok (h.2.2.2.1 rfl rfl)
  · have h := claim_C10 10 0 0 0 (by decide) (by decide) (by decide) (by decide) 31
      (by decide) _ (ipv4_Calculate_eq 10 0 0 0 31 (by decide))
    rw [ipv4_Calculate_eq 10 0 0 0 31 (by decide)]
    exact congrArg Except.ok ((h.2.2.2.2 rfl).2.2)

/-! ## C4 support: byte-list values, mask structure, fill loop -/

theorem bytesToNat_append (xs ys : List Nat) :
    bytesToNat (xs ++ ys) = bytesToNat xs * 2 ^ (8 * ys.length) + bytesToNat ys := by
  induction xs with
  | nil => simp [bytesToNat]
  | cons x xs ih =>
    show x * 2 ^ (8 * (xs ++ ys).length) + bytesToNat (xs ++ ys) =
      (x * 2 ^ (8 * xs.length) + bytesToNat xs) * 2 ^ (8 * ys.length) + bytesToNat ys
    rw [ih, List.length_append,
      show 8 * (xs.length + ys.length) = 8 * xs.length + 8 * ys.length by ring, pow_add]
    ring

theorem bytesToNat_replicate_255 (k : Nat) :
    bytesToNat (List.replicate k 255) = 2 ^ (8 * k) - 1 := by
  induction k with
  | zero => simp [bytesToNat]
  | succ k ih =>
    rw [List.replicate_succ]
    simp only [bytesToNat, List.length_replicate, ih]
    have h1 : 2 ^ (8 * (k + 1)) = 2 ^ (8 * k) * 256 := by
      rw [show 8 * (k + 1) = 8 * k + 8 by ring, pow_add]
      norm_num
    have h2 : 1 ≤ 2 ^ (8 * k) := Nat.one_le_two_pow
    omega

theorem bytesToNat_replicate_zero (k : Nat) : bytesToNat (List.replicate k 0) = 0 := by
  induction k with
  | zero => rfl
  | succ k ih =>
    rw [List.replicate_succ]
    simp [bytesToNat, ih]

theorem cidrMaskBytes_length (l ones : Nat) : (GoNet.cidrMaskBytes ones l).length = l := by
  induction l generalizing ones with
  | zero => rfl
  | succ m ih => simp [GoNet.cidrMaskBytes, ih]

theorem cidrMaskBytes_drop (k l ones : Nat) (hk : k ≤ l) :
    (GoNet.cidrMaskBytes ones l).drop k = GoNet.cidrMaskBytes (ones - 8 * k) (l - k) := by
  induction k generalizing l ones with
  | zero => simp
  | succ k ih =>
    match l, hk with
    | m + 1, hk =>
      show (GoNet.cidrMaskBytes (ones - 8) m).drop k = _
      rw [ih m (ones - 8) (by omega)]
      congr 1 <;> omega

theorem cidrMaskBytes_zero (l : Nat) :
    GoNet.cidrMaskBytes 0 l = List.replicate l 0 := by
  induction l with
  | zero => rfl
  | succ m ih =>
    show (if 8 ≤ 0 then 255 else 255 - (255 >>> 0)) :: GoNet.cidrMaskBytes (0 - 8) m = _
    rw [List.replicate_succ]
    simp [ih]

theorem zipAnd_replicate_zero (xs : List Nat) (k : Nat) (hlen : xs.length = k) :
    List.zipWith (fun a b => a &&& b) xs (List.replicate k 0) = List.replicate k 0 := by
  induction xs generalizing k with
  | nil => simp_all
  | cons x xs ih =>
    match k, hlen with
    | m + 1, hlen =>
      rw [List.replicate_succ, List.zipWith_cons_cons, ih m (by simpa using hlen)]
      simp

theorem ipMask_sixteen (ip mask : List Nat) (hip : ip.length = 16) (hmask : mask.length = 16) :
    GoNet.ipMask ip mask = List.zipWith (fun a b => a &&& b) ip mask := by
  unfold GoNet.ipMask
  simp [hip, hmask]

theorem fillLoop_eq (k : Nat) : ∀ (l : List Nat) (bi : Nat), k ≤ bi + 1 → bi < l.length →
    ipv6.fillLoop l k bi = l.take (bi + 1 - k) ++ List.replicate k 255 ++ l.drop (bi + 1) := by
  induction k with
  | zero =>
    intro l bi _ _
    simp [ipv6.fillLoop, List.take_append_drop]
  | succ k ih =>
    intro l bi hk hbi
    match bi, hk, hbi with
    | 0, hk, hbi =>
      have hk0 : k = 0 := by omega
      subst hk0
      show l.set 0 255 = l.take 0 ++ List.replicate 1 255 ++ l.drop 1
      match l, hbi with
      | x :: t, _ => simp
    | b + 1, hk, hbi =>
      show ipv6.fillLoop (l.set (b + 1) 255) k b = _
      rw [ih (l.set (b + 1) 255) b (by omega) (by simp only [List.length_set]; omega)]
      have h1 : (l.set (b + 1) 255).take (b + 1 - k) = l.take (b + 1 - k) := by
        rw [List.set_take]
        exact List.set_eq_of_length_le (by simp only [List.length_take]; omega)
      have h2 : (l.set (b + 1) 255).drop (b + 1) = 255 :: l.drop (b + 2) := by
        rw [List.drop_set, if_neg (by omega)]
        have := List.drop_eq_getElem_cons (l := l) (n := b + 1) hbi
        rw [Nat.sub_self, this]
        rfl
      rw [h1, h2]
      have h3 : b + 1 - k = b + 2 - (k + 1) := by omega
      rw [h3, List.replicate_succ' k 255]
      simp

theorem set_append_cons {A C : List Nat} (b v : Nat) :
    (A ++ b :: C).set A.length v = A ++ v :: C := by
  induction A with
  | nil => rfl
  | cons a A ih => simp [List.set_cons_succ, ih]

theorem getD_append_cons {A C : List Nat} (b : Nat) :
    (A ++ b :: C).getD A.length 0 = b := by
  induction A with
  | nil => rfl
  | cons a A ih => simpa using ih

theorem set_append_cons' {A C : List Nat} (b v : Nat) {j : Nat} (hj : j = A.length) :
    (A ++ b :: C).set j v = A ++ v :: C := by
  subst hj
  exact set_append_cons b v

theorem getD_append_cons' {A C : List Nat} (b : Nat) {j : Nat} (hj : j = A.length) :
    (A ++ b :: C).getD j 0 = b := by
  subst hj
  exact getD_append_cons b

theorem take_succ_getD {l : List Nat} {j : Nat} (hj : j < l.length) :
    l.take (j + 1) = l.take j ++ [l.getD j 0] := by
  rw [List.take_succ, List.getElem?_eq_getElem hj]
  simp [List.getD_eq_getElem?_getD, List.getElem?_eq_getElem hj]

theorem calculateHostRange_fst (network : List Nat) (hlen : network.length = 16) (p : Nat) :
    (ipv6.calculateHostRange network p).1 = network := by
  have h1 : network.take 16 = network := List.take_of_length_le (by omega)
  have h2 : 16 - network.length = 0 := by omega
  unfold ipv6.calculateHostRange
  rw [h1, h2]
  simp only [List.replicate_zero, List.append_nil]
  split
  · rfl
  · split <;> rfl

theorem hostMax_full (network : List Nat) (hlen : network.length = 16) (p : Nat)
    (hp : 128 ≤ p) : (ipv6.calculateHostRange network p).2 = network := by
  have h1 : network.take 16 = network := List.take_of_length_le (by omega)
  have h2 : 16 - network.length = 0 := by omega
  unfold ipv6.calculateHostRange
  rw [h1, h2]
  simp only [List.replicate_zero, List.append_nil]
  rw [if_pos (by omega)]

theorem hostMax_zero (network : List Nat) (hlen : network.length = 16) :
    (ipv6.calculateHostRange network 0).2 = List.replicate 16 255 := by
  have h1 : network.take 16 = network := List.take_of_length_le (by omega)
  have h2 : 16 - network.length = 0 := by omega
  have hdrop : network.drop 16 = [] := by rw [← hlen]; exact List.drop_length network
  unfold ipv6.calculateHostRange
  rw [h1, h2]
  simp only [List.replicate_zero, List.append_nil]
  rw [if_neg (by omega), if_neg (by omega)]
  rw [fillLoop_eq 16 network 15 (by omega) (by omega)]
  rw [show (15 + 1 - 16) = 0 by norm_num, show (15 + 1) = 16 by norm_num, hdrop]
  simp

theorem hostMax_mid (network : List Nat) (hlen : network.length = 16) (p : Nat)
    (hp1 : 1 ≤ p) (hp : p < 128) :
    (ipv6.calculateHostRange network p).2 =
      network.take (15 - (128 - p) / 8) ++
        ((network.getD (15 - (128 - p) / 8) 0 ||| (2 ^ ((128 - p) % 8) - 1)) ::
          List.replicate ((128 - p) / 8) 255) := by
  have h1 : network.take 16 = network := List.take_of_length_le (by omega)
  have h2 : 16 - network.length = 0 := by omega
  have hdrop : network.drop 16 = [] := by rw [← hlen]; exact List.drop_length network
  have hbtf : (128 - p) / 8 ≤ 15 := by omega
  have hj : 15 - (128 - p) / 8 < network.length := by omega
  -- the filled list: network with its last `bytesToFill` bytes set to 255
  have hfill : ipv6.fillLoop network ((128 - p) / 8) 15 =
      network.take (15 - (128 - p) / 8) ++
        network.getD (15 - (128 - p) / 8) 0 :: List.replicate ((128 - p) / 8) 255 := by
    rw [fillLoop_eq ((128 - p) / 8) network 15 (by omega) (by omega),
      show (15 + 1) = 16 by norm_num, hdrop, List.append_nil]
    rw [show 16 - (128 - p) / 8 = (15 - (128 - p) / 8) + 1 by omega]
    rw [take_succ_getD hj]
    simp
  have hlenA : (network.take (15 - (128 - p) / 8)).length = 15 - (128 - p) / 8 := by
    simp only [List.length_take]
    omega
  unfold ipv6.calculateHostRange
  rw [h1, h2]
  simp only [List.replicate_zero, List.append_nil]
  rw [if_neg (by omega)]
  by_cases hr : 0 < (128 - p) % 8
  · rw [if_pos ⟨hr, hbtf⟩, hfill]
    rw [show (1 : Nat) <<< ((128 - p) % 8) = 2 ^ ((128 - p) % 8) from Nat.one_shiftLeft _]
    rw [getD_append_cons' _ hlenA.symm, set_append_cons' _ _ hlenA.symm]
  · rw [if_neg (by omega), hfill]
    have hr0 : (128 - p) % 8 = 0 := by omega
    rw [hr0]
    norm_num

set_option maxRecDepth 2000 in
theorem land_maskByte_mod (a r : Nat) (hr : r ≤ 8) :
    (a &&& maskByte (8 - r)) % 2 ^ r = 0 := by
  have key : ∀ r' < 9, maskByte (8 - r') &&& (2 ^ r' - 1) = 0 := by decide
  have h0 : maskByte (8 - r) &&& (2 ^ r - 1) = 0 := key r (by omega)
  calc (a &&& maskByte (8 - r)) % 2 ^ r
      = (a &&& maskByte (8 - r)) &&& (2 ^ r - 1) := (Nat.and_pow_two_sub_one_eq_mod _ r).symm
    _ = a &&& (maskByte (8 - r) &&& (2 ^ r - 1)) := Nat.and_assoc _ _ _
    _ = 0 := by rw [h0, Nat.and_zero]

theorem getD_eq_drop_head (l : List Nat) (j : Nat) : l.getD j 0 = (l.drop j).getD 0 0 := by
  simp [List.getD_eq_getElem?_getD, List.getElem?_drop]

set_option maxHeartbeats 1000000 in
/-- C4: after `Calculate` with a prefix in `[0, 128]`, `HostMin` equals the
network address exactly, and the value of `HostMax` is the value of the
network address with exactly the `128 - p` low-order bits set to one (the
network address's own low `128 - p` bits being zero, its upper `p` bits are
unchanged); at `p = 128`, `HostMin = HostMax = Network`. -/
theorem claim_C4 (addr : List Nat) (hlen : addr.length = 16) (p : Nat) (hp : p ≤ 128)
    (n : ipv6.Network) (h : ipv6.Calculate { Address := addr, PrefixLength := p } = .ok n) :
    n.HostMin = n.NetworkAddr ∧
    bytesToNat n.HostMax = bytesToNat n.NetworkAddr ||| (2 ^ (128 - p) - 1) ∧
    bytesToNat n.NetworkAddr % 2 ^ (128 - p) = 0 ∧
    (p = 128 → n.HostMin = n.NetworkAddr ∧ n.HostMax = n.NetworkAddr) := by
  unfold ipv6.Calculate at h
  split at h
  · exact absurd h (by simp)
  · cases h
    have hmask : GoNet.cidrMask p 128 = GoNet.cidrMaskBytes p 16 := by
      unfold GoNet.cidrMask
      rw [if_neg (by simp), if_neg (by omega)]
    have hmlen : (GoNet.cidrMaskBytes p 16).length = 16 := cidrMaskBytes_length 16 p
    have hNWeq : GoNet.ipMask addr (GoNet.cidrMask p 128) =
        List.zipWith (fun a b => a &&& b) addr (GoNet.cidrMaskBytes p 16) := by
      rw [hmask]
      exact ipMask_sixteen _ _ hlen hmlen
    have hNWlen : (GoNet.ipMask addr (GoNet.cidrMask p 128)).length = 16 := by
      rw [hNWeq, List.length_zipWith, hlen, hmlen]
      omega
    have main : 1 ≤ p → p < 128 →
        bytesToNat ((ipv6.calculateHostRange (GoNet.ipMask addr (GoNet.cidrMask p 128)) p).2) =
            bytesToNat (GoNet.ipMask addr (GoNet.cidrMask p 128)) + (2 ^ (128 - p) - 1) ∧
        bytesToNat (GoNet.ipMask addr (GoNet.cidrMask p 128)) % 2 ^ (128 - p) = 0 ∧
        bytesToNat (GoNet.ipMask addr (GoNet.cidrMask p 128)) ||| (2 ^ (128 - p) - 1) =
          bytesToNat (GoNet.ipMask addr (GoNet.cidrMask p 128)) + (2 ^ (128 - p) - 1) := by
      intro hp1 hplt
      have hrlt : (128 - p) % 8 < 8 := Nat.mod_lt _ (by omega)
      have hjlt : 15 - (128 - p) / 8 < addr.length := by omega
      -- the mask from the boundary byte on: one partial byte, then zero bytes
      have hmaskdropj : (GoNet.cidrMaskBytes p 16).drop (15 - (128 - p) / 8) =
          maskByte (8 - (128 - p) % 8) ::
            GoNet.cidrMaskBytes 0 ((128 - p) / 8) := by
        rw [cidrMaskBytes_drop (15 - (128 - p) / 8) 16 p (by omega)]
        rw [show 16 - (15 - (128 - p) / 8) = (128 - p) / 8 + 1 by omega]
        show GoNet.cidrMaskBytes (p - 8 * (15 - (128 - p) / 8)) ((128 - p) / 8 + 1) = _
        rw [show p - 8 * (15 - (128 - p) / 8) = 8 - (128 - p) % 8 by omega]
        show maskByte (8 - (128 - p) % 8) :: GoNet.cidrMaskBytes (8 - (128 - p) % 8 - 8) _ = _
        rw [show 8 - (128 - p) % 8 - 8 = 0 by omega]
      -- the address from the boundary byte on
      have haddrdropj : addr.drop (15 - (128 - p) / 8) =
          addr.getD (15 - (128 - p) / 8) 0 :: addr.drop (15 - (128 - p) / 8 + 1) := by
        rw [List.drop_eq_getElem_cons hjlt]
        rw [List.getD_eq_getElem?_getD, List.getElem?_eq_getElem hjlt]
        rfl
      -- the network from the boundary byte on
      have hNWdropj : (GoNet.ipMask addr (GoNet.cidrMask p 128)).drop (15 - (128 - p) / 8) =
          (addr.getD (15 - (128 - p) / 8) 0 &&& maskByte (8 - (128 - p) % 8)) ::
            List.replicate ((128 - p) / 8) 0 := by
        rw [hNWeq, List.drop_zipWith, haddrdropj, hmaskdropj, List.zipWith_cons_cons]
        rw [cidrMaskBytes_zero]
        rw [zipAnd_replicate_zero _ _ (by rw [List.length_drop, hlen]; omega)]
      -- split the network at the boundary byte
      have hsplitNW : GoNet.ipMask addr (GoNet.cidrMask p 128) =
          (GoNet.ipMask addr (GoNet.cidrMask p 128)).take (15 - (128 - p) / 8) ++
            (addr.getD (15 - (128 - p) / 8) 0 &&& maskByte (8 - (128 - p) % 8)) ::
              List.replicate ((128 - p) / 8) 0 := by
        conv_lhs => rw [← List.take_append_drop (15 - (128 - p) / 8)
          (GoNet.ipMask addr (GoNet.cidrMask p 128))]
        rw [hNWdropj]
      have hlenA : ((GoNet.ipMask addr (GoNet.cidrMask p 128)).take
          (15 - (128 - p) / 8)).length = 15 - (128 - p) / 8 := by
        simp only [List.length_take]
        omega
      have hgetDNW : (GoNet.ipMask addr (GoNet.cidrMask p 128)).getD (15 - (128 - p) / 8) 0 =
          addr.getD (15 - (128 - p) / 8) 0 &&& maskByte (8 - (128 - p) % 8) := by
        rw [getD_eq_drop_head, hNWdropj]
        rfl
      -- HostMax as a list
      have hmax := hostMax_mid (GoNet.ipMask addr (GoNet.cidrMask p 128)) hNWlen p hp1 hplt
      rw [hgetDNW] at hmax
      -- values
      have hq : 2 ^ ((128 - p) % 8) ∣
          (addr.getD (15 - (128 - p) / 8) 0 &&& maskByte (8 - (128 - p) % 8)) :=
        Nat.dvd_of_mod_eq_zero (land_maskByte_mod _ _ (by omega))
      obtain ⟨q, hqe⟩ := hq
      have hbtnNW : bytesToNat (GoNet.ipMask addr (GoNet.cidrMask p 128)) =
          bytesToNat ((GoNet.ipMask addr (GoNet.cidrMask p 128)).take (15 - (128 - p) / 8)) *
            (2 ^ (8 * ((128 - p) / 8)) * 256) +
          (addr.getD (15 - (128 - p) / 8) 0 &&& maskByte (8 - (128 - p) % 8)) *
            2 ^ (8 * ((128 - p) / 8)) := by
        conv_lhs => rw [hsplitNW]
        rw [bytesToNat_append]
        simp only [bytesToNat, List.length_cons, List.length_replicate,
          bytesToNat_replicate_zero]
        rw [show 8 * ((128 - p) / 8 + 1) = 8 * ((128 - p) / 8) + 8 by ring, pow_add]
        norm_num
      have hbtnMax : bytesToNat ((ipv6.calculateHostRange
            (GoNet.ipMask addr (GoNet.cidrMask p 128)) p).2) =
          bytesToNat ((GoNet.ipMask addr (GoNet.cidrMask p 128)).take (15 - (128 - p) / 8)) *
            (2 ^ (8 * ((128 - p) / 8)) * 256) +
          (((addr.getD (15 - (128 - p) / 8) 0 &&& maskByte (8 - (128 - p) % 8)) |||
              (2 ^ ((128 - p) % 8) - 1)) * 2 ^ (8 * ((128 - p) / 8)) +
            (2 ^ (8 * ((128 - p) / 8)) - 1)) := by
        rw [hmax, bytesToNat_append]
        simp only [bytesToNat, List.length_cons, List.length_replicate,
          bytesToNat_replicate_255]
        rw [show 8 * ((128 - p) / 8 + 1) = 8 * ((128 - p) / 8) + 8 by ring, pow_add]
        norm_num
      have hornj : (addr.getD (15 - (128 - p) / 8) 0 &&& maskByte (8 - (128 - p) % 8)) |||
          (2 ^ ((128 - p) % 8) - 1) =
          (addr.getD (15 - (128 - p) / 8) 0 &&& maskByte (8 - (128 - p) % 8)) +
            (2 ^ ((128 - p) % 8) - 1) := by
        rw [hqe]
        exact (Nat.mul_add_lt_is_or (Nat.sub_lt (Nat.two_pow_pos _) Nat.one_pos) q).symm
      have h256 : (2 : Nat) ^ (8 * ((128 - p) / 8)) * 256 =
          2 ^ (128 - p) * 2 ^ (8 - (128 - p) % 8) := by
        rw [show (256 : Nat) = 2 ^ 8 by norm_num, ← pow_add, ← pow_add]
        congr 1
        omega
      have hUT : 2 ^ ((128 - p) % 8) * 2 ^ (8 * ((128 - p) / 8)) = 2 ^ (128 - p) := by
        rw [← pow_add]
        congr 1
        omega
      have hfact : bytesToNat (GoNet.ipMask addr (GoNet.cidrMask p 128)) =
          2 ^ (128 - p) *
            (bytesToNat ((GoNet.ipMask addr (GoNet.cidrMask p 128)).take
              (15 - (128 - p) / 8)) * 2 ^ (8 - (128 - p) % 8) + q) := by
        rw [hbtnNW, hqe, h256]
        calc _ = (2 ^ (128 - p) * 2 ^ (8 - (128 - p) % 8)) *
              bytesToNat ((GoNet.ipMask addr (GoNet.cidrMask p 128)).take
                (15 - (128 - p) / 8)) +
              (2 ^ ((128 - p) % 8) * 2 ^ (8 * ((128 - p) / 8))) * q := by ring
          _ = _ := by rw [hUT]; ring
      refine ⟨?_, ?_, ?_⟩
      · -- the HostMax value equation
        rw [hbtnMax, hbtnNW, hornj]
        have hU1 : 1 ≤ 2 ^ ((128 - p) % 8) := Nat.one_le_two_pow
        have hT1 : 1 ≤ 2 ^ (8 * ((128 - p) / 8)) := Nat.one_le_two_pow
        have hH1 : 1 ≤ 2 ^ (128 - p) := Nat.one_le_two_pow
        rw [← hUT]
        have hUT1 : 1 ≤ 2 ^ ((128 - p) % 8) * 2 ^ (8 * ((128 - p) / 8)) :=
          Nat.one_le_iff_ne_zero.mpr (by positivity)
        zify [hU1, hT1, hUT1]
        ring
      · rw [hfact]
        exact Nat.mul_mod_right _ _
      · rw [hfact]
        exact (Nat.mul_add_lt_is_or (Nat.sub_lt (Nat.two_pow_pos _) Nat.one_pos) _).symm
    refine ⟨?_, ?_, ?_, ?_⟩
    · exact calculateHostRange_fst _ hNWlen p
    · show bytesToNat ((ipv6.calculateHostRange
          (GoNet.ipMask addr (GoNet.cidrMask p 128)) p).2) =
        bytesToNat (GoNet.ipMask addr (GoNet.cidrMask p 128)) ||| (2 ^ (128 - p) - 1)
      by_cases hp128 : p = 128
      · subst hp128
        rw [hostMax_full _ hNWlen 128 (by omega)]
        norm_num
      · by_cases hp0 : p = 0
        · subst hp0
          rw [hostMax_zero _ hNWlen]
          have hNW0 : GoNet.ipMask addr (GoNet.cidrMask 0 128) = List.replicate 16 0 := by
            rw [hNWeq, cidrMaskBytes_zero]
            exact zipAnd_replicate_zero _ _ hlen
          rw [hNW0, bytesToNat_replicate_zero, bytesToNat_replicate_255, Nat.zero_or]
        · obtain ⟨h1, -, h3⟩ := main (by omega) (by omega)
          rw [h1, h3]
    · show bytesToNat (GoNet.ipMask addr (GoNet.cidrMask p 128)) % 2 ^ (128 - p) = 0
      by_cases hp128 : p = 128
      · subst hp128
        simp [Nat.mod_one]
      · by_cases hp0 : p = 0
        · subst hp0
          have hNW0 : GoNet.ipMask addr (GoNet.cidrMask 0 128) = List.replicate 16 0 := by
            rw [hNWeq, cidrMaskBytes_zero]
            exact zipAnd_replicate_zero _ _ hlen
          rw [hNW0, bytesToNat_replicate_zero, Nat.zero_mod]
        · exact (main (by omega) (by omega)).2.1
    · intro hp128
      exact ⟨calculateHostRange_fst _ hNWlen p, hostMax_full _ hNWlen p (by omega)⟩

set_option maxHeartbeats 1000000 in
/-- C4, witness at `2001:db8::1/64`. -/
theorem claim_C4_witness :
    bytesToNat [32, 1, 13, 184, 0, 0, 0, 0, 255, 255, 255, 255, 255, 255, 255, 255] =
      bytesToNat [32, 1, 13, 184, 0, 0, 0, 0, 0, 0, 0, 0, 0, 0, 0, 0] |||
        (2 ^ (128 - 64) - 1) ∧
    bytesToNat [32, 1, 13, 184, 0, 0, 0, 0, 0, 0, 0, 0, 0, 0, 0, 0] % 2 ^ (128 - 64) = 0 := by
  have h := claim_C4 [32, 1, 13, 184, 0, 0, 0, 0, 0, 0, 0, 0, 0, 0, 0, 1] rfl 64
    (by decide) _ rfl
  exact ⟨h.2.1, h.2.2.1⟩

/-! ## C8 support: bit characters and piecewise structure of the renderers -/

theorem isBitChar_bitChar (x : Bool) : isBitChar (GoNet.bitChar x) = true := by
  cases x <;> decide

theorem mem_byteBits_isBit {c : Char} {b : Nat} (h : c ∈ GoNet.byteBits b) :
    isBitChar c = true := by
  unfold GoNet.byteBits at h
  obtain ⟨k, -, hk⟩ := List.mem_map.mp h
  rw [← hk]
  exact isBitChar_bitChar _

theorem mem_flatMap_byteBits {c : Char} {l : List Nat} (h : c ∈ l.flatMap GoNet.byteBits) :
    isBitChar c = true := by
  obtain ⟨b, -, hb⟩ := List.mem_flatMap.mp h
  exact mem_byteBits_isBit hb

theorem bitAt (l : List Nat) (i : Nat) :
    isBitChar ((l.flatMap GoNet.byteBits).getD i '0') = true := by
  by_cases h : i < (l.flatMap GoNet.byteBits).length
  · rw [List.getD_eq_getElem?_getD, List.getElem?_eq_getElem h]
    exact mem_flatMap_byteBits (List.getElem_mem h)
  · rw [List.getD_eq_getElem?_getD, List.getElem?_eq_none (by omega)]
    decide

theorem countP_flatMap {α : Type} (l : List α) (f : α → List Char) (pr : Char → Bool) :
    (l.flatMap f).countP pr = (l.map (fun a => (f a).countP pr)).sum := by
  induction l with
  | nil => rfl
  | cons a l ih => simp [List.flatMap_cons, List.countP_append, ih]

theorem range_split (w q : Nat) (h : q < w) :
    List.range w = List.range q ++ q :: (List.range (w - q - 1)).map (fun k => q + (k + 1)) := by
  have h1 : w = q + ((w - q - 1) + 1) := by omega
  conv_lhs => rw [h1]
  rw [List.range_add, List.range_succ_eq_map, List.map_cons, List.map_map]
  simp [Function.comp_def, Nat.succ_eq_add_one]

theorem c8_v4_masked (ip : List Nat) (hlen : ip.length = 4) (p : Int) (hp0 : 0 < p)
    (hp32 : p < 32) :
    ∃ A B, ipv4.FormatBinaryWithMask ip p = A ++ ' ' :: B ∧ ' ' ∉ A ∧ ' ' ∉ B ∧
      A.countP isBitChar = p.toNat ∧ ∃ c B', B = c :: B' ∧ isBitChar c = true := by
  obtain ⟨q, rfl⟩ : ∃ q : Nat, p = (q : Int) :=
    ⟨p.toNat, (Int.toNat_of_nonneg (by omega)).symm⟩
  rw [Int.toNat_natCast]
  have hq32 : q < 32 := by omega
  unfold ipv4.FormatBinaryWithMask
  rw [if_neg (by omega), if_neg (by omega)]
  rw [range_split 32 q hq32, List.flatMap_append, List.flatMap_cons, List.flatMap_map]
  rw [if_pos rfl]
  refine ⟨(List.range q).flatMap (fun i =>
      (if (i : Int) = (q : Int) then [' '] else []) ++
      [(ip.flatMap GoNet.byteBits).getD i '0'] ++
      (if (i + 1) % 8 = 0 ∧ i < 31 then ['.'] else [])),
    (ip.flatMap GoNet.byteBits).getD q '0' ::
      ((if (q + 1) % 8 = 0 ∧ q < 31 then ['.'] else []) ++
        (List.range (32 - q - 1)).flatMap (fun k =>
          (if ((q + (k + 1) : Nat) : Int) = (q : Int) then [' '] else []) ++
          [(ip.flatMap GoNet.byteBits).getD (q + (k + 1)) '0'] ++
          (if (q + (k + 1) + 1) % 8 = 0 ∧ q + (k + 1) < 31 then ['.'] else []))),
    ?_, ?_, ?_, ?_, ?_⟩
  · simp [List.append_assoc]
  · intro hmem
    obtain ⟨i, hi, hc⟩ := List.mem_flatMap.mp hmem
    have hi' : i < q := List.mem_range.mp hi
    rw [if_neg (by omega), List.nil_append] at hc
    rcases List.mem_append.mp hc with h1 | h1
    · have hb := bitAt ip i
      rw [← List.mem_singleton.mp h1] at hb
      exact absurd hb (by decide)
    · revert h1
      split <;> decide
  · intro hmem
    rcases List.mem_cons.mp hmem with h1 | h1
    · have hb := bitAt ip q
      rw [← h1] at hb
      exact absurd hb (by decide)
    · rcases List.mem_append.mp h1 with h2 | h2
      · revert h2
        split <;> decide
      · obtain ⟨k, hk, hc⟩ := List.mem_flatMap.mp h2
        rw [if_neg (by omega), List.nil_append] at hc
        rcases List.mem_append.mp hc with h3 | h3
        · have hb := bitAt ip (q + (k + 1))
          rw [← List.mem_singleton.mp h3] at hb
          exact absurd hb (by decide)
        · revert h3
          split <;> decide
  · rw [countP_flatMap]
    have hone : ∀ i ∈ List.range q,
        ((if (i : Int) = (q : Int) then [' '] else []) ++
          [(ip.flatMap GoNet.byteBits).getD i '0'] ++
          (if (i + 1) % 8 = 0 ∧ i < 31 then ['.'] else [])).countP isBitChar = 1 := by
      intro i hi
      have hi' : i < q := List.mem_range.mp hi
      rw [if_neg (by omega), List.nil_append, List.countP_append, List.countP_cons,
        List.countP_nil, bitAt ip i]
      have hdot : ((if (i + 1) % 8 = 0 ∧ i < 31 then ['.'] else []) : List Char).countP
          isBitChar = 0 := by
        split <;> decide
      simp [hdot]
    rw [List.map_congr_left hone, List.map_const', List.sum_replicate, List.length_range]
    simp
  · exact ⟨_, _, rfl, bitAt ip q⟩

theorem c8_v4_unmasked (ip : List Nat) (hlen : ip.length = 4) (p : Int)
    (hp : 32 ≤ p ∨ p ≤ 0) : ' ' ∉ ipv4.FormatBinaryWithMask ip p := by
  unfold ipv4.FormatBinaryWithMask
  rw [if_neg (by omega), if_pos hp]
  intro hmem
  simp only [List.mem_append, List.mem_cons] at hmem
  rcases hmem with h | h | h | h | h | h | h
  · exact absurd (mem_flatMap_byteBits (List.mem_of_mem_take h)) (by decide)
  · exact absurd h (by decide)
  · exact absurd (mem_flatMap_byteBits (List.mem_of_mem_drop (List.mem_of_mem_take h)))
      (by decide)
  · exact absurd h (by decide)
  · exact absurd (mem_flatMap_byteBits (List.mem_of_mem_drop (List.mem_of_mem_take h)))
      (by decide)
  · exact absurd h (by decide)
  · exact absurd (mem_flatMap_byteBits (List.mem_of_mem_drop (List.mem_of_mem_take h)))
      (by decide)

theorem c8_v6_unmasked (ip : List Nat) (hlen : ip.length = 16) (p : Int)
    (hp : 128 ≤ p ∨ p ≤ 0) : ' ' ∉ ipv6.FormatBinaryWithMask ip p := by
  unfold ipv6.FormatBinaryWithMask ipv6.FormatBinary
  rw [if_neg (by omega), if_pos hp, if_neg (by omega)]
  intro hmem
  obtain ⟨i, hi, hc⟩ := List.mem_flatMap.mp hmem
  rcases List.mem_append.mp hc with h1 | h1
  · revert h1
    split <;> decide
  · exact absurd (mem_byteBits_isBit h1) (by decide)

theorem c8_v6_masked (ip : List Nat) (hlen : ip.length = 16) (p : Int) (hp0 : 0 < p)
    (hp128 : p < 128) :
    ∃ A B, ipv6.FormatBinaryWithMask ip p = A ++ ' ' :: B ∧ ' ' ∉ A ∧ ' ' ∉ B ∧
      A.countP isBitChar = p.toNat ∧ ∃ c B', B = c :: B' ∧ isBitChar c = true := by
  obtain ⟨q, rfl⟩ : ∃ q : Nat, p = (q : Int) :=
    ⟨p.toNat, (Int.toNat_of_nonneg (by omega)).symm⟩
  rw [Int.toNat_natCast]
  have hq128 : q < 128 := by omega
  unfold ipv6.FormatBinaryWithMask
  rw [if_neg (by omega), if_neg (by omega)]
  rw [range_split 128 q hq128, List.flatMap_append, List.flatMap_cons, List.flatMap_map]
  rw [if_pos rfl]
  refine ⟨(List.range q).flatMap (fun k =>
      (if k % 16 = 0 ∧ k ≠ 0 then [':'] else []) ++
      (if (k : Int) = (q : Int) then [' '] else []) ++
      [(ip.flatMap GoNet.byteBits).getD k '0']) ++
      (if q % 16 = 0 ∧ q ≠ 0 then [':'] else []),
    (ip.flatMap GoNet.byteBits).getD q '0' ::
      (List.range (128 - q - 1)).flatMap (fun j =>
        (if (q + (j + 1)) % 16 = 0 ∧ q + (j + 1) ≠ 0 then [':'] else []) ++
        (if ((q + (j + 1) : Nat) : Int) = (q : Int) then [' '] else []) ++
        [(ip.flatMap GoNet.byteBits).getD (q + (j + 1)) '0']),
    ?_, ?_, ?_, ?_, ?_⟩
  · simp [List.append_assoc]
  · intro hmem
    rcases List.mem_append.mp hmem with h1 | h1
    · obtain ⟨k, hk, hc⟩ := List.mem_flatMap.mp h1
      have hk' : k < q := List.mem_range.mp hk
      rw [if_neg (show ¬((k : Int) = (q : Int)) by omega)] at hc
      rcases List.mem_append.mp hc with h2 | h2
      · rcases List.mem_append.mp h2 with h3 | h3
        · revert h3
          split <;> decide
        · exact absurd h3 (by decide)
      · have hb := bitAt ip k
        rw [← List.mem_singleton.mp h2] at hb
        exact absurd hb (by decide)
    · revert h1
      split <;> decide
  · intro hmem
    rcases List.mem_cons.mp hmem with h1 | h1
    · have hb := bitAt ip q
      rw [← h1] at hb
      exact absurd hb (by decide)
    · obtain ⟨j, hj, hc⟩ := List.mem_flatMap.mp h1
      rw [if_neg (show ¬(((q + (j + 1) : Nat) : Int) = (q : Int)) by push_cast; omega)] at hc
      rcases List.mem_append.mp hc with h2 | h2
      · rcases List.mem_append.mp h2 with h3 | h3
        · revert h3
          split <;> decide
        · exact absurd h3 (by decide)
      · have hb := bitAt ip (q + (j + 1))
        rw [← List.mem_singleton.mp h2] at hb
        exact absurd hb (by decide)
  · rw [List.countP_append, countP_flatMap]
    have hone : ∀ k ∈ List.range q,
        ((if k % 16 = 0 ∧ k ≠ 0 then [':'] else []) ++
          (if (k : Int) = (q : Int) then [' '] else []) ++
          [(ip.flatMap GoNet.byteBits).getD k '0']).countP isBitChar = 1 := by
      intro k hk
      have hk' : k < q := List.mem_range.mp hk
      rw [if_neg (show ¬((k : Int) = (q : Int)) by omega), List.countP_append,
        List.countP_append, List.countP_cons, List.countP_nil, bitAt ip k]
      have hcol : ((if k % 16 = 0 ∧ k ≠ 0 then [':'] else []) : List Char).countP
          isBitChar = 0 := by
        split <;> decide
      simp [hcol]
    rw [List.map_congr_left hone, List.map_const', List.sum_replicate, List.length_range]
    have hcolq : ((if q % 16 = 0 ∧ q ≠ 0 then [':'] else []) : List Char).countP
        isBitChar = 0 := by
      split <;> decide
    simp [hcolq]
  · exact ⟨_, _, rfl, bitAt ip q⟩

/-- **C8.** For every address of the correct byte length and every prefix length
`p`, the masked binary renderer (IPv4 over 32 bits, IPv6 over 128 bits) inserts
exactly one space, placed immediately before the bit at position `p` counting
bits from the most significant bit and ignoring the dot/colon separators,
whenever `0 < p <` width: the output splits as `A ++ ' ' :: B` where neither
part contains a space, `A` holds exactly `p` bit characters, and `B` starts
with a bit character.  When `p ≤ 0` or `p ≥` width, no space appears at all. -/
theorem claim_C8 :
    (∀ (ip : List Nat) (p : Int), ip.length = 4 →
      ((0 < p ∧ p < 32 →
        ∃ A B, ipv4.FormatBinaryWithMask ip p = A ++ ' ' :: B ∧ ' ' ∉ A ∧ ' ' ∉ B ∧
          A.countP isBitChar = p.toNat ∧ ∃ c B', B = c :: B' ∧ isBitChar c = true) ∧
       (32 ≤ p ∨ p ≤ 0 → ' ' ∉ ipv4.FormatBinaryWithMask ip p))) ∧
    (∀ (ip : List Nat) (p : Int), ip.length = 16 →
      ((0 < p ∧ p < 128 →
        ∃ A B, ipv6.FormatBinaryWithMask ip p = A ++ ' ' :: B ∧ ' ' ∉ A ∧ ' ' ∉ B ∧
          A.countP isBitChar = p.toNat ∧ ∃ c B', B = c :: B' ∧ isBitChar c = true) ∧
       (128 ≤ p ∨ p ≤ 0 → ' ' ∉ ipv6.FormatBinaryWithMask ip p))) :=
  ⟨fun ip p hlen => ⟨fun h => c8_v4_masked ip hlen p h.1 h.2,
      fun h => c8_v4_unmasked ip hlen p h⟩,
   fun ip p hlen => ⟨fun h => c8_v6_masked ip hlen p h.1 h.2,
      fun h => c8_v6_unmasked ip hlen p h⟩⟩

/-- Witness for C8: the masked renderers at `192.168.1.1/24` (space after 24
bits), `/32` (no space), and `2001:db8::/64` (space after 64 bits), `/128`
(no space). -/
theorem claim_C8_witness :
    (∃ A B, ipv4.FormatBinaryWithMask [192, 168, 1, 1] 24 = A ++ ' ' :: B ∧ ' ' ∉ A ∧
      ' ' ∉ B ∧ A.countP isBitChar = (24 : Int).toNat ∧
      ∃ c B', B = c :: B' ∧ isBitChar c = true) ∧
    ' ' ∉ ipv4.FormatBinaryWithMask [192, 168, 1, 1] 32 ∧
    (∃ A B, ipv6.FormatBinaryWithMask [32, 1, 13, 184, 0, 0, 0, 0, 0, 0, 0, 0, 0, 0, 0, 0]
        64 = A ++ ' ' :: B ∧ ' ' ∉ A ∧ ' ' ∉ B ∧
      A.countP isBitChar = (64 : Int).toNat ∧
      ∃ c B', B = c :: B' ∧ isBitChar c = true) ∧
    ' ' ∉ ipv6.FormatBinaryWithMask [32, 1, 13, 184, 0, 0, 0, 0, 0, 0, 0, 0, 0, 0, 0, 0]
      128 :=
  ⟨(claim_C8.1 [192, 168, 1, 1] 24 rfl).1 ⟨by decide, by decide⟩,
   (claim_C8.1 [192, 168, 1, 1] 32 rfl).2 (Or.inl (by decide)),
   (claim_C8.2 [32, 1, 13, 184, 0, 0, 0, 0, 0, 0, 0, 0, 0, 0, 0, 0] 64 rfl).1
     ⟨by decide, by decide⟩,
   (claim_C8.2 [32, 1, 13, 184, 0, 0, 0, 0, 0, 0, 0, 0, 0, 0, 0, 0] 128 rfl).2
     (Or.inl (by decide))⟩

theorem ipString_four {ip : List Nat} (h : ip.length = 4) :
    GoNet.ipString ip = GoNet.dottedQuad ip := by
  have h4 : GoNet.ipTo4 ip = some ip := by unfold GoNet.ipTo4; rw [if_pos h]
  unfold GoNet.ipString
  rw [if_neg (by omega)]
  simp only [h4]

theorem ipString_sixteen {ip : List Nat} (h : ip.length = 16)
    (h4 : GoNet.ipTo4 ip = none) : GoNet.ipString ip = GoNet.v6Canonical ip := by
  unfold GoNet.ipString
  rw [if_neg (by omega)]
  simp only [h4]
  rw [if_pos h]

theorem ipTo4_of_to16 {ip a : List Nat} (h : GoNet.ipTo16 ip = some a)
    (hn : (GoNet.ipTo4 ip).isSome = false) : GoNet.ipTo4 a = none := by
  unfold GoNet.ipTo16 at h
  split at h
  · rename_i h4
    exfalso
    have hs : GoNet.ipTo4 ip = some ip := by unfold GoNet.ipTo4; rw [if_pos h4]
    rw [hs] at hn
    simp at hn
  · split at h
    · cases h
      exact Option.not_isSome_iff_eq_none.mp (by simp [hn])
    · exact absurd h (by simp)

/-- **C9.** For every CIDR string accepted by `ParseCIDR` (either family),
`String()` on the returned, unmodified `Network` produces the canonical
textual form of the parsed address — dotted-quad for IPv4, canonically
compressed for IPv6 — followed by `/` and the parsed prefix length. -/
theorem claim_C9 :
    (∀ (s : String) (n : ipv4.Network), ipv4.ParseCIDR s = .ok n →
      ipv4.netString n =
        String.mk (GoNet.dottedQuad n.Address ++ '/' :: GoNet.decimalChars n.PrefixLength)) ∧
    (∀ (s : String) (n : ipv6.Network), ipv6.ParseCIDR s = .ok n →
      ipv6.netString n =
        String.mk (GoNet.v6Canonical n.Address ++ '/' :: GoNet.decimalChars n.PrefixLength)) := by
  constructor
  · intro s n h
    unfold ipv4.ParseCIDR at h
    cases hg : GoNet.goParseCIDR s with
    | none => simp only [hg] at h; exact absurd h (by simp)
    | some p =>
      obtain ⟨ip, m⟩ := p
      simp only [hg] at h
      cases h4 : GoNet.ipTo4 ip with
      | none => simp only [h4] at h; exact absurd h (by simp)
      | some a4 =>
        simp only [h4] at h
        cases h
        unfold ipv4.netString
        rw [ipString_four (GoNet.ipTo4_length h4)]
  · intro s n h
    unfold ipv6.ParseCIDR at h
    cases hg : GoNet.goParseCIDR s with
    | none => simp only [hg] at h; exact absurd h (by simp)
    | some p =>
      obtain ⟨ip, m⟩ := p
      simp only [hg] at h
      cases h16 : GoNet.ipTo16 ip with
      | none => simp only [h16] at h; exact absurd h (by simp)
      | some a16 =>
        simp only [h16] at h
        split at h
        · exact absurd h (by simp)
        · rename_i hsome
          cases h
          unfold ipv6.netString
          rw [ipString_sixteen (GoNet.ipTo16_length h16)
            (ipTo4_of_to16 h16 (by simpa using hsome))]

/-- Witness for C9: the round trip at `192.168.0.1/24` and `2001:db8::1/64`. -/
theorem claim_C9_witness :
    ipv4.netString { Address := [192, 168, 0, 1], PrefixLength := 24 } =
      String.mk (GoNet.dottedQuad [192, 168, 0, 1] ++ '/' :: GoNet.decimalChars 24) ∧
    ipv6.netString
        { Address := [32, 1, 13, 184, 0, 0, 0, 0, 0, 0, 0, 0, 0, 0, 0, 1],
          PrefixLength := 64 } =
      String.mk (GoNet.v6Canonical [32, 1, 13, 184, 0, 0, 0, 0, 0, 0, 0, 0, 0, 0, 0, 1] ++
        '/' :: GoNet.decimalChars 64) :=
  ⟨claim_C9.1 "192.168.0.1/24" { Address := [192, 168, 0, 1], PrefixLength := 24 } rfl,
   claim_C9.2 "2001:db8::1/64"
     { Address := [32, 1, 13, 184, 0, 0, 0, 0, 0, 0, 0, 0, 0, 0, 0, 1],
       PrefixLength := 64 } rfl⟩
